import Mathlib

/-!
Verification development for the SharedList offline-first synchronization
engine.  The definitions below are a shallow embedding of the TypeScript
sources: `src/storage/itemsStore.ts`, `src/storage/syncQueue.ts`,
`src/storage/listsStore.ts`, `src/sync/syncWorker.ts` and
`src/sync/healthAndSyncWorker.ts`.  Asynchronous storage-backed functions are
modelled as pure functions from the loaded state to the saved state; remote
calls are modelled by outcome oracles passed as arguments.
-/

namespace SharedList

/-- Boolean flags attached to every list item (`FlagState` in models/list). -/
structure FlagState where
  checked : Bool
  crossed : Bool
  highlighted : Bool
deriving DecidableEq, Repr

/-- A locally stored item (`StoredItemPlain` in itemsStore.ts).
`itemId = none` means local-only: not yet created on the server. -/
structure StoredItemPlain where
  itemId : Option Nat
  label : String
  flags : FlagState
deriving DecidableEq, Repr

/-- A decrypted remote item snapshot (`RemoteItemSnapshot` in itemsStore.ts).
The optional `deleted` field of the source is a plain `Bool` here
(an absent field reads as `false`). -/
structure RemoteItemSnapshot where
  itemId : Nat
  label : String
  flags : FlagState
  deleted : Bool
deriving DecidableEq, Repr

/-- JS `Map.set` on an association list with unique keys: an existing key is
updated in place (JS `Map` keeps insertion order), a new key is appended. -/
def mapSet : List (Nat × StoredItemPlain) → Nat → StoredItemPlain →
    List (Nat × StoredItemPlain)
  | [], k, v => [(k, v)]
  | p :: rest, k, v => if p.1 = k then (k, v) :: rest else p :: mapSet rest k v

/-- JS `Map.delete` on an association list. -/
def mapDelete : List (Nat × StoredItemPlain) → Nat → List (Nat × StoredItemPlain)
  | [], _ => []
  | p :: rest, k => if p.1 = k then mapDelete rest k else p :: mapDelete rest k

/-- JS `Map.get` on an association list. -/
def mapLookup : List (Nat × StoredItemPlain) → Nat → Option StoredItemPlain
  | [], _ => none
  | p :: rest, k => if p.1 = k then some p.2 else mapLookup rest k

/-- One step of the first loop of `mergeRemoteItemsIntoLocal`: items with a
non-null id are indexed by that id, local-only items are skipped. -/
def indexStep (m : List (Nat × StoredItemPlain)) (it : StoredItemPlain) :
    List (Nat × StoredItemPlain) :=
  match it.itemId with
  | some i => mapSet m i it
  | none => m

/-- The `byId` map built from the locally stored items
(`mergeRemoteItemsIntoLocal`, first loop). -/
def localIndex (localItems : List StoredItemPlain) : List (Nat × StoredItemPlain) :=
  localItems.foldl indexStep []

/-- One step of the remote loop of `mergeRemoteItemsIntoLocal`: a tombstone
deletes the entry, otherwise the remote version is upserted wholesale. -/
def applySnapshot (m : List (Nat × StoredItemPlain)) (r : RemoteItemSnapshot) :
    List (Nat × StoredItemPlain) :=
  if r.deleted then mapDelete m r.itemId
  else mapSet m r.itemId ⟨some r.itemId, r.label, r.flags⟩

/-- The full remote loop of `mergeRemoteItemsIntoLocal`. -/
def applySnapshots (m : List (Nat × StoredItemPlain)) (rs : List RemoteItemSnapshot) :
    List (Nat × StoredItemPlain) :=
  rs.foldl applySnapshot m

/-- `mergeRemoteItemsIntoLocal` from itemsStore.ts, as the pure function from
the loaded local items and the remote snapshots to the saved local items.
An empty snapshot list returns early and saves nothing; otherwise local-only
items (null id) are kept in front, and the indexed items after the remote
loop follow in map insertion order. -/
def mergeRemoteItemsIntoLocal (localItems : List StoredItemPlain)
    (remoteItems : List RemoteItemSnapshot) : List StoredItemPlain :=
  if remoteItems.isEmpty then localItems
  else
    (localItems.filter (fun it => it.itemId.isNone)) ++
      (applySnapshots (localIndex localItems) remoteItems).map Prod.snd

theorem mapLookup_mapSet_self (m : List (Nat × StoredItemPlain)) (k : Nat)
    (v : StoredItemPlain) : mapLookup (mapSet m k v) k = some v := by
  induction m with
  | nil => simp [mapSet, mapLookup]
  | cons p rest ih =>
    by_cases h : p.1 = k
    · simp [mapSet, mapLookup, h]
    · simp [mapSet, mapLookup, h, ih]

theorem mapLookup_mapSet_ne (m : List (Nat × StoredItemPlain)) (k k' : Nat)
    (v : StoredItemPlain) (h : k' ≠ k) :
    mapLookup (mapSet m k v) k' = mapLookup m k' := by
  induction m with
  | nil => simp [mapSet, mapLookup, h, Ne.symm h]
  | cons p rest ih =>
    by_cases hp : p.1 = k
    · subst hp
      simp [mapSet, mapLookup, h, Ne.symm h]
    · by_cases hp' : p.1 = k'
      · simp [mapSet, mapLookup, hp, hp', h, Ne.symm h]
      · simp [mapSet, mapLookup, hp, hp', ih]

theorem mapLookup_mapDelete_self (m : List (Nat × StoredItemPlain)) (k : Nat) :
    mapLookup (mapDelete m k) k = none := by
  induction m with
  | nil => simp [mapDelete, mapLookup]
  | cons p rest ih =>
    by_cases h : p.1 = k
    · simp [mapDelete, h, ih]
    · simp [mapDelete, mapLookup, h, ih]

theorem mapLookup_mapDelete_ne (m : List (Nat × StoredItemPlain)) (k k' : Nat)
    (h : k' ≠ k) : mapLookup (mapDelete m k) k' = mapLookup m k' := by
  induction m with
  | nil => simp [mapDelete]
  | cons p rest ih =>
    by_cases hp : p.1 = k
    · subst hp
      simp [mapDelete, mapLookup, ih, h, Ne.symm h]
    · by_cases hp' : p.1 = k'
      · simp [mapDelete, mapLookup, hp, hp', h]
      · simp [mapDelete, mapLookup, hp, hp', ih]

theorem mem_of_mem_mapSet (m : List (Nat × StoredItemPlain)) (k : Nat)
    (v : StoredItemPlain) (q : Nat × StoredItemPlain)
    (hq : q ∈ mapSet m k v) : q = (k, v) ∨ q ∈ m := by
  induction m with
  | nil =>
    simp [mapSet] at hq
    exact Or.inl (by simp [hq])
  | cons p rest ih =>
    by_cases h : p.1 = k
    · simp [mapSet, h] at hq
      rcases hq with hq | hq
      · exact Or.inl (by simp [hq])
      · exact Or.inr (List.mem_cons_of_mem p hq)
    · simp [mapSet, h] at hq
      rcases hq with hq | hq
      · exact Or.inr (by simp [hq])
      · rcases ih hq with h0 | h0
        · exact Or.inl h0
        · exact Or.inr (List.mem_cons_of_mem p h0)

theorem mem_of_mem_mapDelete (m : List (Nat × StoredItemPlain)) (k : Nat)
    (q : Nat × StoredItemPlain) (hq : q ∈ mapDelete m k) : q ∈ m := by
  induction m with
  | nil =>
    simp [mapDelete] at hq
  | cons p rest ih =>
    by_cases h : p.1 = k
    · simp [mapDelete, h] at hq
      exact List.mem_cons_of_mem p (ih hq)
    · simp [mapDelete, h] at hq
      rcases hq with hq | hq
      · exact by simp [hq]
      · exact List.mem_cons_of_mem p (ih hq)

/-- Keys of the association list are pairwise distinct (the invariant a JS
`Map` gives for free). -/
def NodupKeys : List (Nat × StoredItemPlain) → Prop
  | [] => True
  | p :: rest => (∀ q ∈ rest, q.1 ≠ p.1) ∧ NodupKeys rest

theorem nodupKeys_cons_iff (p : Nat × StoredItemPlain)
    (rest : List (Nat × StoredItemPlain)) :
    NodupKeys (p :: rest) ↔ (∀ q ∈ rest, q.1 ≠ p.1) ∧ NodupKeys rest := Iff.rfl

theorem nodupKeys_mapSet (m : List (Nat × StoredItemPlain)) (k : Nat)
    (v : StoredItemPlain) (hm : NodupKeys m) : NodupKeys (mapSet m k v) := by
  induction m with
  | nil =>
    rw [show mapSet [] k v = [(k, v)] from rfl, nodupKeys_cons_iff]
    exact ⟨by intro q hq; simp at hq, trivial⟩
  | cons p rest ih =>
    rw [nodupKeys_cons_iff] at hm
    rcases hm with ⟨h1, h2⟩
    by_cases h : p.1 = k
    · subst h
      rw [show mapSet (p :: rest) p.1 v = (p.1, v) :: rest by simp [mapSet],
        nodupKeys_cons_iff]
      exact ⟨by simpa using h1, h2⟩
    · rw [show mapSet (p :: rest) k v = p :: mapSet rest k v by simp [mapSet, h],
        nodupKeys_cons_iff]
      refine ⟨?_, ih h2⟩
      intro q hq
      rcases mem_of_mem_mapSet rest k v q hq with h0 | h0
      · subst h0
        exact fun hk => h hk.symm
      · exact h1 q h0

theorem nodupKeys_mapDelete (m : List (Nat × StoredItemPlain)) (k : Nat)
    (hm : NodupKeys m) : NodupKeys (mapDelete m k) := by
  induction m with
  | nil => trivial
  | cons p rest ih =>
    rw [nodupKeys_cons_iff] at hm
    rcases hm with ⟨h1, h2⟩
    by_cases h : p.1 = k
    · rw [show mapDelete (p :: rest) k = mapDelete rest k by simp [mapDelete, h]]
      exact ih h2
    · rw [show mapDelete (p :: rest) k = p :: mapDelete rest k by simp [mapDelete, h],
        nodupKeys_cons_iff]
      refine ⟨?_, ih h2⟩
      intro q hq
      exact h1 q (mem_of_mem_mapDelete rest k q hq)

theorem mapLookup_of_mem (m : List (Nat × StoredItemPlain)) (k : Nat)
    (v : StoredItemPlain) (hm : NodupKeys m) (h : (k, v) ∈ m) :
    mapLookup m k = some v := by
  induction m with
  | nil => simp at h
  | cons p rest ih =>
    rw [nodupKeys_cons_iff] at hm
    rcases hm with ⟨h1, h2⟩
    rcases List.mem_cons.1 h with h0 | h0
    · rw [← h0]
      simp [mapLookup]
    · have hk : k ≠ p.1 := h1 (k, v) h0
      have hpk : ¬p.1 = k := fun hkp => hk hkp.symm
      simp only [mapLookup, hpk, if_false]
      exact ih h2 h0

theorem mem_of_mapLookup (m : List (Nat × StoredItemPlain)) (k : Nat)
    (v : StoredItemPlain) (h : mapLookup m k = some v) : (k, v) ∈ m := by
  induction m with
  | nil => simp [mapLookup] at h
  | cons p rest ih =>
    by_cases hp : p.1 = k
    · simp [mapLookup, hp] at h
      subst h
      exact List.mem_cons.2 (Or.inl (by rw [← hp]))
    · simp [mapLookup, hp] at h
      exact List.mem_cons_of_mem p (ih h)

/-- Well-formedness of the id index: every entry's value carries exactly the
key as its item id. -/
def IndexWF (m : List (Nat × StoredItemPlain)) : Prop :=
  ∀ p ∈ m, p.2.itemId = some p.1

theorem indexWF_mapSet (m : List (Nat × StoredItemPlain)) (k : Nat)
    (v : StoredItemPlain) (hm : IndexWF m) (hv : v.itemId = some k) :
    IndexWF (mapSet m k v) := by
  intro p hp
  rcases mem_of_mem_mapSet m k v p hp with h0 | h0
  · subst h0; exact hv
  · exact hm p h0

theorem indexWF_mapDelete (m : List (Nat × StoredItemPlain)) (k : Nat)
    (hm : IndexWF m) : IndexWF (mapDelete m k) := by
  intro p hp
  exact hm p (mem_of_mem_mapDelete m k p hp)

theorem indexStep_invariant (m : List (Nat × StoredItemPlain))
    (it : StoredItemPlain) (h1 : IndexWF m) (h2 : NodupKeys m) :
    IndexWF (indexStep m it) ∧ NodupKeys (indexStep m it) := by
  unfold indexStep
  cases hid : it.itemId with
  | none => exact ⟨h1, h2⟩
  | some i => exact ⟨indexWF_mapSet m i it h1 hid, nodupKeys_mapSet m i it h2⟩

theorem foldl_indexStep_invariant (localItems : List StoredItemPlain)
    (m : List (Nat × StoredItemPlain)) (h1 : IndexWF m) (h2 : NodupKeys m) :
    IndexWF (localItems.foldl indexStep m) ∧
      NodupKeys (localItems.foldl indexStep m) := by
  induction localItems generalizing m with
  | nil => exact ⟨h1, h2⟩
  | cons it rest ih =>
    have h := indexStep_invariant m it h1 h2
    simpa using ih (indexStep m it) h.1 h.2

theorem localIndex_invariant (localItems : List StoredItemPlain) :
    IndexWF (localIndex localItems) ∧ NodupKeys (localIndex localItems) :=
  foldl_indexStep_invariant localItems [] (by intro p hp; simp at hp) trivial

theorem foldl_indexStep_lookup (localItems : List StoredItemPlain)
    (m : List (Nat × StoredItemPlain)) (k : Nat) (v : StoredItemPlain)
    (h : mapLookup (localItems.foldl indexStep m) k = some v) :
    mapLookup m k = some v ∨ v ∈ localItems := by
  induction localItems generalizing m with
  | nil => exact Or.inl h
  | cons it rest ih =>
    rw [List.foldl_cons] at h
    rcases ih (indexStep m it) h with h0 | h0
    · unfold indexStep at h0
      cases hid : it.itemId with
      | none =>
        rw [hid] at h0
        exact Or.inl h0
      | some i =>
        rw [hid] at h0
        by_cases hk : k = i
        · subst hk
          rw [mapLookup_mapSet_self] at h0
          exact Or.inr (by simp [← Option.some_inj.1 h0])
        · rw [mapLookup_mapSet_ne m i k it hk] at h0
          exact Or.inl h0
    · exact Or.inr (List.mem_cons_of_mem it h0)

theorem mapLookup_localIndex_mem (localItems : List StoredItemPlain) (k : Nat)
    (v : StoredItemPlain) (h : mapLookup (localIndex localItems) k = some v) :
    v ∈ localItems := by
  rcases foldl_indexStep_lookup localItems [] k v h with h0 | h0
  · simp [mapLookup] at h0
  · exact h0

theorem applySnapshot_invariant (m : List (Nat × StoredItemPlain))
    (r : RemoteItemSnapshot) (h1 : IndexWF m) (h2 : NodupKeys m) :
    IndexWF (applySnapshot m r) ∧ NodupKeys (applySnapshot m r) := by
  unfold applySnapshot
  by_cases hd : r.deleted
  · simp only [hd, if_true]
    exact ⟨indexWF_mapDelete m r.itemId h1, nodupKeys_mapDelete m r.itemId h2⟩
  · simp only [hd, if_false, Bool.false_eq_true]
    exact ⟨indexWF_mapSet m r.itemId _ h1 rfl, nodupKeys_mapSet m r.itemId _ h2⟩

theorem applySnapshots_cons (m : List (Nat × StoredItemPlain))
    (r : RemoteItemSnapshot) (rest : List RemoteItemSnapshot) :
    applySnapshots m (r :: rest) = applySnapshots (applySnapshot m r) rest := rfl

theorem applySnapshots_invariant (m : List (Nat × StoredItemPlain))
    (rs : List RemoteItemSnapshot) (h1 : IndexWF m) (h2 : NodupKeys m) :
    IndexWF (applySnapshots m rs) ∧ NodupKeys (applySnapshots m rs) := by
  induction rs generalizing m with
  | nil => exact ⟨h1, h2⟩
  | cons r rest ih =>
    have h := applySnapshot_invariant m r h1 h2
    rw [applySnapshots_cons]
    exact ih (applySnapshot m r) h.1 h.2

theorem mapLookup_applySnapshots_not_mentioned (m : List (Nat × StoredItemPlain))
    (rs : List RemoteItemSnapshot) (k : Nat) (h : ∀ r ∈ rs, r.itemId ≠ k) :
    mapLookup (applySnapshots m rs) k = mapLookup m k := by
  induction rs generalizing m with
  | nil => rfl
  | cons r rest ih =>
    have hr : r.itemId ≠ k := h r (List.mem_cons_self r rest)
    have hstep : mapLookup (applySnapshot m r) k = mapLookup m k := by
      unfold applySnapshot
      by_cases hd : r.deleted
      · simp only [hd, if_true]
        exact mapLookup_mapDelete_ne m r.itemId k (Ne.symm hr)
      · simp only [hd, if_false, Bool.false_eq_true]
        exact mapLookup_mapSet_ne m r.itemId k _ (Ne.symm hr)
    rw [applySnapshots_cons,
      ih (applySnapshot m r) (fun s hs => h s (List.mem_cons_of_mem r hs)), hstep]

theorem mapLookup_applySnapshots_mentioned (m : List (Nat × StoredItemPlain))
    (rs : List RemoteItemSnapshot) (r : RemoteItemSnapshot)
    (hn : (rs.map RemoteItemSnapshot.itemId).Nodup) (hr : r ∈ rs) :
    mapLookup (applySnapshots m rs) r.itemId =
      if r.deleted then none else some ⟨some r.itemId, r.label, r.flags⟩ := by
  induction rs generalizing m with
  | nil => simp at hr
  | cons s rest ih =>
    simp only [List.map_cons, List.nodup_cons, List.mem_map] at hn
    rcases List.mem_cons.1 hr with hr0 | hr0
    · subst hr0
      have hrest : ∀ t ∈ rest, t.itemId ≠ r.itemId := by
        intro t ht heq
        exact hn.1 ⟨t, ht, heq⟩
      rw [applySnapshots_cons,
        mapLookup_applySnapshots_not_mentioned (applySnapshot m r) rest r.itemId hrest]
      unfold applySnapshot
      by_cases hd : r.deleted
      · simp only [hd, if_true]
        exact mapLookup_mapDelete_self m r.itemId
      · simp only [hd, if_false, Bool.false_eq_true]
        exact mapLookup_mapSet_self m r.itemId _
    · rw [applySnapshots_cons]
      exact ih (applySnapshot m s) hn.2 hr0

theorem filter_isNone_idem (l : List StoredItemPlain) :
    (l.filter (fun it => it.itemId.isNone)).filter (fun it => it.itemId.isNone) =
      l.filter (fun it => it.itemId.isNone) := by
  induction l with
  | nil => rfl
  | cons it rest ih =>
    by_cases h : it.itemId.isNone <;> simp [List.filter_cons, h, ih]

theorem filter_isNone_map_snd (m : List (Nat × StoredItemPlain))
    (hwf : IndexWF m) :
    (m.map Prod.snd).filter (fun it => it.itemId.isNone) = [] := by
  induction m with
  | nil => rfl
  | cons p rest ih =>
    have hp := hwf p (List.mem_cons_self p rest)
    simp only [List.map_cons, List.filter_cons, hp, Option.isNone_some,
      Bool.false_eq_true, if_false]
    exact ih (fun q hq => hwf q (List.mem_cons_of_mem p hq))

/-- C1: for every call to `mergeRemoteItemsIntoLocal` (with pairwise distinct
snapshot item ids, as an incremental fetch returns at most one entry per
item): local items with a null `itemId` are preserved unchanged; for every
tombstoned snapshot no item with that server id survives; every non-deleted
snapshot appears wholesale (its label and flags) under its server id; and
every item of the result is either a preserved null-id local item, a
non-deleted snapshot's remote version, or a local item whose server id no
snapshot mentions. -/
theorem C1_merge
    (localItems : List StoredItemPlain) (remoteItems : List RemoteItemSnapshot)
    (hn : (remoteItems.map RemoteItemSnapshot.itemId).Nodup) :
    ((mergeRemoteItemsIntoLocal localItems remoteItems).filter
        (fun it => it.itemId.isNone) =
      localItems.filter (fun it => it.itemId.isNone)) ∧
    (∀ r ∈ remoteItems, r.deleted = true →
      ∀ it ∈ mergeRemoteItemsIntoLocal localItems remoteItems,
        it.itemId ≠ some r.itemId) ∧
    (∀ r ∈ remoteItems, r.deleted = false →
      (⟨some r.itemId, r.label, r.flags⟩ : StoredItemPlain) ∈
        mergeRemoteItemsIntoLocal localItems remoteItems) ∧
    (∀ it ∈ mergeRemoteItemsIntoLocal localItems remoteItems,
      (it.itemId = none ∧ it ∈ localItems) ∨
      (∃ r ∈ remoteItems, r.deleted = false ∧
        it = ⟨some r.itemId, r.label, r.flags⟩) ∨
      (it ∈ localItems ∧ ∀ r ∈ remoteItems, some r.itemId ≠ it.itemId)) := by
  by_cases hemp : remoteItems.isEmpty
  · have hre : remoteItems = [] := List.isEmpty_iff.1 hemp
    subst hre
    refine ⟨by simp [mergeRemoteItemsIntoLocal], by simp, by simp, ?_⟩
    intro it hit
    rw [mergeRemoteItemsIntoLocal] at hit
    simp at hit
    cases hid : it.itemId with
    | none => exact Or.inl ⟨rfl, hit⟩
    | some i => exact Or.inr (Or.inr ⟨hit, by simp⟩)
  · have h0 := localIndex_invariant localItems
    have hinv := applySnapshots_invariant (localIndex localItems) remoteItems h0.1 h0.2
    have hmerge : mergeRemoteItemsIntoLocal localItems remoteItems =
        (localItems.filter (fun it => it.itemId.isNone)) ++
          (applySnapshots (localIndex localItems) remoteItems).map Prod.snd := by
      rw [mergeRemoteItemsIntoLocal, if_neg hemp]
    refine ⟨?_, ?_, ?_, ?_⟩
    · rw [hmerge, List.filter_append, filter_isNone_map_snd _ hinv.1,
        List.append_nil, filter_isNone_idem]
    · intro r hr hdel it hit hcontra
      rw [hmerge] at hit
      rcases List.mem_append.1 hit with hit0 | hit0
      · have := (List.mem_filter.1 hit0).2
        rw [hcontra] at this
        simp at this
      · rcases List.mem_map.1 hit0 with ⟨p, hp, hpe⟩
        have hwf := hinv.1 p hp
        rw [hpe, hcontra] at hwf
        have hpmem : (r.itemId, it) ∈ applySnapshots (localIndex localItems) remoteItems := by
          have : p = (r.itemId, it) := by
            cases p
            simp at hpe hwf
            simp [hpe, hwf.symm]
          rw [← this]
          exact hp
        have hlook := mapLookup_of_mem _ r.itemId it hinv.2 hpmem
        rw [mapLookup_applySnapshots_mentioned _ remoteItems r hn hr, hdel] at hlook
        simp at hlook
    · intro r hr hdel
      have hlook := mapLookup_applySnapshots_mentioned (localIndex localItems)
        remoteItems r hn hr
      rw [hdel] at hlook
      simp only [Bool.false_eq_true, if_false] at hlook
      have hmem := mem_of_mapLookup _ r.itemId _ hlook
      rw [hmerge]
      exact List.mem_append.2 (Or.inr (List.mem_map.2 ⟨_, hmem, rfl⟩))
    · intro it hit
      rw [hmerge] at hit
      rcases List.mem_append.1 hit with hit0 | hit0
      · have h1 := List.mem_filter.1 hit0
        exact Or.inl ⟨Option.isNone_iff_eq_none.1 h1.2, h1.1⟩
      · rcases List.mem_map.1 hit0 with ⟨p, hp, hpe⟩
        have hwf := hinv.1 p hp
        rw [hpe] at hwf
        have hpmem : (p.1, it) ∈ applySnapshots (localIndex localItems) remoteItems := by
          have : p = (p.1, it) := by
            cases p
            simp at hpe
            simp [hpe]
          rw [← this]
          exact hp
        have hlook := mapLookup_of_mem _ p.1 it hinv.2 hpmem
        by_cases hex : ∃ r ∈ remoteItems, r.itemId = p.1
        · rcases hex with ⟨r, hr, hrk⟩
          have hl := mapLookup_applySnapshots_mentioned (localIndex localItems)
            remoteItems r hn hr
          rw [hrk] at hl
          rw [hl] at hlook
          cases hdel : r.deleted with
          | true =>
            rw [hdel] at hlook
            simp at hlook
          | false =>
            rw [hdel] at hlook
            simp only [Bool.false_eq_true, if_false, Option.some_inj] at hlook
            refine Or.inr (Or.inl ⟨r, hr, hdel, ?_⟩)
            rw [← hlook, hrk]
        · have hnm : ∀ r ∈ remoteItems, r.itemId ≠ p.1 := by
            intro r hr heq
            exact hex ⟨r, hr, heq⟩
          rw [mapLookup_applySnapshots_not_mentioned _ remoteItems p.1 hnm] at hlook
          have hl := mapLookup_localIndex_mem localItems p.1 it hlook
          refine Or.inr (Or.inr ⟨hl, ?_⟩)
          intro r hr heq
          rw [hwf] at heq
          exact hnm r hr (Option.some_inj.1 heq)

/-- Flags used by the C1 concrete example. -/
def c1Flags : FlagState := ⟨false, false, false⟩

/-- Local items `{null, 1, 2}` of the C1 concrete example. -/
def c1Local : List StoredItemPlain :=
  [⟨none, "milk", c1Flags⟩, ⟨some 1, "eggs", c1Flags⟩, ⟨some 2, "jam", c1Flags⟩]

/-- Remote snapshots `{2 deleted, 1 label "X"}` of the C1 concrete example. -/
def c1Remote : List RemoteItemSnapshot :=
  [⟨2, "", c1Flags, true⟩, ⟨1, "X", c1Flags, false⟩]

theorem C1_merge_witness :
    (c1Remote.map RemoteItemSnapshot.itemId).Nodup ∧
    mergeRemoteItemsIntoLocal c1Local c1Remote =
      [⟨none, "milk", c1Flags⟩, ⟨some 1, "X", c1Flags⟩] ∧
    (∀ r ∈ c1Remote, r.deleted = true →
      ∀ it ∈ mergeRemoteItemsIntoLocal c1Local c1Remote,
        it.itemId ≠ some r.itemId) :=
  ⟨by decide, by decide, (C1_merge c1Local c1Remote (by decide)).2.1⟩

/-- The discriminated kind of a pending operation (syncQueue.ts). -/
inductive OpType
  | create_list
  | create_item
  | update_item
  | delete_item
deriving DecidableEq, Repr

/-- A queue entry (`PendingOperation` in syncQueue.ts), flattened over the
four variants: the cipher fields hold the meta payload for `create_list`
and the item payload for `create_item` / `update_item`; `itemId` is
meaningful for the item-targeted kinds. -/
structure PendingOperation where
  id : String
  type : OpType
  listId : String
  itemId : Nat
  ciphertextB64 : String
  nonceB64 : String
  createdAt : Nat
deriving DecidableEq, Repr

/-- How a persisted JSON value presents itself to a loader: absent, invalid
JSON (`JSON.parse` throws), valid JSON that is not an array, or an array of
entries. -/
inductive StoredValue (α : Type)
  | absent
  | invalid
  | notArray
  | arr (entries : List α)
deriving DecidableEq, Repr

/-- `loadQueue` from syncQueue.ts: an absent, unparsable or non-array
persisted value loads as the empty queue; an array is returned as-is (its
entries are cast, not validated). -/
def loadQueue : StoredValue PendingOperation → List PendingOperation
  | .absent => []
  | .invalid => []
  | .notArray => []
  | .arr entries => entries

/-- `enqueueCreateItem` from syncQueue.ts: the freshly built operation is
appended at the end of the loaded queue and the whole queue is saved. -/
def enqueueCreateItem (queue : List PendingOperation) (op : PendingOperation) :
    List PendingOperation :=
  queue ++ [op]

/-- `removeOperations` from syncQueue.ts: with an empty id list the queue is
left untouched; otherwise every operation whose id occurs in `ids` is
dropped, keeping the order of the survivors. -/
def removeOperations (queue : List PendingOperation) (ids : List String) :
    List PendingOperation :=
  if ids.isEmpty then queue
  else queue.filter (fun op => !(ids.contains op.id))

/-- `updateCreateItemOpCipher` from syncQueue.ts: the first still-pending
`create_item` operation with the given operation id gets its ciphertext and
nonce replaced in place; everything else, including the order, is
untouched. -/
def updateCreateItemOpCipher : List PendingOperation → String → String → String →
    List PendingOperation
  | [], _, _, _ => []
  | op :: rest, opId, ct, n =>
    if op.type = OpType.create_item ∧ op.id = opId then
      { op with ciphertextB64 := ct, nonceB64 := n } :: rest
    else op :: updateCreateItemOpCipher rest opId ct n

/-- A locally registered list (`StoredList` in storage/types.ts) together
with the `removedFromServer` flag maintained by the reconciliation worker
(a missing persisted flag reads as `false`). -/
structure StoredList where
  listId : String
  listKey : String
  name : String
  lastSeenRev : Option Nat
  lastRemoteRev : Option Nat
  pendingCreate : Bool
  removedFromServer : Bool
deriving DecidableEq, Repr

/-- A raw persisted registry entry before normalization: the rev fields are
`none` when the stored field is not a number, `name` is `none` when
absent. -/
structure RawStoredList where
  listId : String
  listKey : String
  name : Option String
  lastSeenRev : Option Nat
  lastRemoteRev : Option Nat
  pendingCreate : Bool
  removedFromServer : Bool
deriving DecidableEq, Repr

/-- The per-entry normalization of `loadStoredLists` (listsStore.ts): a
non-number `lastRemoteRev` defaults to the loaded `lastSeenRev`, a missing
name defaults to the unnamed-list placeholder. -/
def normalizeStoredList (r : RawStoredList) : StoredList :=
  { listId := r.listId
    listKey := r.listKey
    name := r.name.getD "Lista senza nome"
    lastSeenRev := r.lastSeenRev
    lastRemoteRev :=
      match r.lastRemoteRev with
      | some n => some n
      | none => r.lastSeenRev
    pendingCreate := r.pendingCreate
    removedFromServer := r.removedFromServer }

/-- `loadStoredLists` from listsStore.ts: absent, unparsable and non-array
registries load as empty; array entries are normalized one by one. -/
def loadStoredLists : StoredValue RawStoredList → List StoredList
  | .absent => []
  | .invalid => []
  | .notArray => []
  | .arr entries => entries.map normalizeStoredList

/-- `updateLastSeenRev` from listsStore.ts: the first registry entry with the
given list id gets `lastSeenRev` overwritten with the given revision;
`lastRemoteRev` is not touched. -/
def updateLastSeenRev : List StoredList → String → Nat → List StoredList
  | [], _, _ => []
  | l :: rest, listId, rev =>
    if l.listId = listId then { l with lastSeenRev := some rev } :: rest
    else l :: updateLastSeenRev rest listId rev

/-- `markListSynced` from listsStore.ts: the first registry entry with the
given list id gets `pendingCreate := false`. -/
def markListSynced : List StoredList → String → List StoredList
  | [], _ => []
  | l :: rest, listId =>
    if l.listId = listId then { l with pendingCreate := false } :: rest
    else l :: markListSynced rest listId

/-- Events observable by UI consumers (syncEvents.ts / itemSyncEvents.ts). -/
inductive SyncEvent
  | listSynced (listId : String)
  | itemSynced (listId : String) (opId : String) (itemId : Nat) (rev : Nat)
  | listsChanged
  | health (ok : Bool)
deriving DecidableEq, Repr

/-- Outcome of one remote call made by the sync worker: the server's
acknowledgement (`itemId` and `rev` are meaningful for the item calls) or a
thrown error carrying its message. -/
inductive RemoteOutcome
  | ok (itemId : Nat) (rev : Nat)
  | err (msg : String)
deriving DecidableEq, Repr

/-- Character-list test that `sub` starts the list. -/
def startsWithChars : List Char → List Char → Bool
  | [], _ => true
  | _ :: _, [] => false
  | c :: cs, d :: ds => c == d && startsWithChars cs ds

/-- Character-list substring occurrence test. -/
def containsChars (sub : List Char) : List Char → Bool
  | [] => sub.isEmpty
  | c :: rest => startsWithChars sub (c :: rest) || containsChars sub rest

/-- JS `String.prototype.includes` for the non-empty needles the worker
uses. -/
def containsStr (msg sub : String) : Bool := containsChars sub.data msg.data

/-- Rate-limit classification of `runSyncOnce` (checked first; aborts the
batch). -/
def isRateLimit (msg : String) : Bool := containsStr msg "Too many requests"

/-- Duplicate-create classification of `runSyncOnce` (applies to
`create_list` only). -/
def isDupCreateMsg (msg : String) : Bool :=
  containsStr msg "already exists" || containsStr msg "duplicate key" ||
    containsStr msg "lists_pkey"

/-- Not-found classification of `runSyncOnce`. -/
def isItemNotFound (msg : String) : Bool := containsStr msg "Item not found"

/-- State threaded through the batch loop of `runSyncOnce`: the list
registry, the events emitted so far, the ids of the operations whose remote
call was made, and the ids collected in `processedIds`. -/
structure WorkerState where
  lists : List StoredList
  events : List SyncEvent
  attempted : List String
  processed : List String
deriving DecidableEq, Repr

/-- Effect of a successful remote call on the worker state (the success
branches of the batch loop of `runSyncOnce`). -/
def applySuccess (s : WorkerState) (op : PendingOperation) (itemId rev : Nat) :
    WorkerState :=
  match op.type with
  | .create_list =>
    { s with lists := markListSynced s.lists op.listId
             events := s.events ++ [SyncEvent.listSynced op.listId]
             processed := s.processed ++ [op.id] }
  | .create_item =>
    { s with lists := updateLastSeenRev s.lists op.listId rev
             events := s.events ++ [SyncEvent.itemSynced op.listId op.id itemId rev]
             processed := s.processed ++ [op.id] }
  | .update_item =>
    { s with lists := updateLastSeenRev s.lists op.listId rev
             events := s.events ++ [SyncEvent.itemSynced op.listId op.id itemId rev]
             processed := s.processed ++ [op.id] }
  | .delete_item => { s with processed := s.processed ++ [op.id] }

/-- The batch loop of `runSyncOnce`: operations are tried in order; a
rate-limit error breaks out of the loop; a duplicate-create response is
treated as create_list success (mark synced, emit, collect); an
item-not-found response is collected without further effect; any other
error leaves the operation queued and the loop moves on. -/
def processBatch (outcome : PendingOperation → RemoteOutcome) :
    List PendingOperation → WorkerState → WorkerState
  | [], s => s
  | op :: rest, s =>
    let s1 : WorkerState := { s with attempted := s.attempted ++ [op.id] }
    match outcome op with
    | .ok itemId rev => processBatch outcome rest (applySuccess s1 op itemId rev)
    | .err msg =>
      if isRateLimit msg = true then s1
      else if op.type = OpType.create_list ∧ isDupCreateMsg msg = true then
        processBatch outcome rest
          { s1 with lists := markListSynced s1.lists op.listId
                    events := s1.events ++ [SyncEvent.listSynced op.listId]
                    processed := s1.processed ++ [op.id] }
      else if isItemNotFound msg = true then
        processBatch outcome rest { s1 with processed := s1.processed ++ [op.id] }
      else processBatch outcome rest s1

/-- An operation's outcome is terminal exactly when the worker collects its
id into `processedIds`: success, duplicate-create on `create_list`, or
item-not-found (rate-limit is checked first and is never terminal). -/
def opTerminal (outcome : PendingOperation → RemoteOutcome)
    (op : PendingOperation) : Bool :=
  match outcome op with
  | .ok _ _ => true
  | .err msg =>
    !isRateLimit msg &&
      ((decide (op.type = OpType.create_list) && isDupCreateMsg msg) ||
        isItemNotFound msg)

/-- The persisted run-lock record (`{owner, ts}` in syncWorker.ts). -/
structure LockRec where
  owner : String
  ts : Nat
deriving DecidableEq, Repr

def LOCK_TTL_MS : Nat := 30000

/-- How reading the persisted lock record can present itself: the storage
read itself can throw, the record can be absent or unparsable, or a record
is there. -/
inductive LockRead
  | threw
  | absent
  | malformed
  | valid (rec : LockRec)
deriving DecidableEq, Repr

/-- The faithful reading of a lock store that does not fault. -/
def lockReadOf : Option LockRec → LockRead
  | none => .absent
  | some r => .valid r

/-- Freshness check of `acquireLock`: JS `parsed?.ts && now - parsed.ts <
LOCK_TTL_MS` (a zero timestamp is falsy and is treated like a malformed
record). -/
def lockFresh (now : Nat) (rec : LockRec) : Bool :=
  rec.ts != 0 && now - rec.ts < LOCK_TTL_MS

/-- `acquireLock` from syncWorker.ts with storage-fault injection: returns
whether the run may proceed together with the resulting persisted record.
A throwing read skips the freshness check and the write; a throwing write
leaves the store unchanged; both are swallowed and the lock "fails open"
(the function still returns `true`). -/
def acquireLock (now : Nat) (runId : String) (read : LockRead)
    (writeThrows : Bool) (store : Option LockRec) : Bool × Option LockRec :=
  match read with
  | .threw => (true, store)
  | .valid rec =>
    if lockFresh now rec then (false, store)
    else if writeThrows then (true, store)
    else (true, some ⟨runId, now⟩)
  | .absent => if writeThrows then (true, store) else (true, some ⟨runId, now⟩)
  | .malformed => if writeThrows then (true, store) else (true, some ⟨runId, now⟩)

/-- `releaseLock` from syncWorker.ts: removes the record only when this run
owns it. -/
def releaseLock (runId : String) (store : Option LockRec) : Option LockRec :=
  match store with
  | none => none
  | some rec => if rec.owner = runId then none else some rec

/-- The ambient inputs of one `runSyncOnce` invocation: wall clock, run id,
the health-probe answer, the behaviour of the lock store, and the outcome
oracle for the remote operation calls. -/
structure SyncInputs where
  now : Nat
  runId : String
  online : Bool
  lockRead : Option LockRec → LockRead
  lockWriteThrows : Bool
  outcome : PendingOperation → RemoteOutcome

/-- The shared state a run reads and writes: the in-process `running` flag,
the persisted lock, the persisted queue and the persisted registry. -/
structure SyncState where
  running : Bool
  lock : Option LockRec
  queue : List PendingOperation
  lists : List StoredList
deriving Repr

/-- What one run produces: the final shared state, the emitted events,
whether the health probe (a remote call) was made, and the ids of the
operations whose remote call was made. -/
structure RunResult where
  state : SyncState
  events : List SyncEvent
  healthzCalled : Bool
  attempted : List String
deriving Repr

/-- `runSyncOnce` from syncWorker.ts as one atomic run: the in-process
`running` flag gate, the run lock, the health probe, the batch of up to
three oldest operations, removal of the terminally-processed ids, and the
`finally` block (release lock, clear flag). -/
def runSyncOnce (inp : SyncInputs) (st : SyncState) : RunResult :=
  if st.running then ⟨st, [], false, []⟩
  else
    let acq := acquireLock inp.now inp.runId (inp.lockRead st.lock)
      inp.lockWriteThrows st.lock
    if acq.1 = false then ⟨⟨false, acq.2, st.queue, st.lists⟩, [], false, []⟩
    else if inp.online = false then
      ⟨⟨false, releaseLock inp.runId acq.2, st.queue, st.lists⟩, [], true, []⟩
    else if st.queue.isEmpty then
      ⟨⟨false, releaseLock inp.runId acq.2, st.queue, st.lists⟩, [], true, []⟩
    else
      let ws := processBatch inp.outcome (st.queue.take 3) ⟨st.lists, [], [], []⟩
      ⟨⟨false, releaseLock inp.runId acq.2,
          removeOperations st.queue ws.processed, ws.lists⟩,
        ws.events, true, ws.attempted⟩

theorem processBatch_nil (outcome : PendingOperation → RemoteOutcome)
    (s : WorkerState) : processBatch outcome [] s = s := rfl

theorem applySuccess_processed (s : WorkerState) (op : PendingOperation)
    (itemId rev : Nat) :
    (applySuccess s op itemId rev).processed = s.processed ++ [op.id] ∧
    (applySuccess s op itemId rev).attempted = s.attempted := by
  cases h : op.type <;> simp [applySuccess, h]

theorem applySuccess_events (s : WorkerState) (op : PendingOperation)
    (itemId rev : Nat) :
    ∃ e, (applySuccess s op itemId rev).events = s.events ++ e := by
  cases h : op.type
  · exact ⟨[SyncEvent.listSynced op.listId], by simp [applySuccess, h]⟩
  · exact ⟨[SyncEvent.itemSynced op.listId op.id itemId rev], by simp [applySuccess, h]⟩
  · exact ⟨[SyncEvent.itemSynced op.listId op.id itemId rev], by simp [applySuccess, h]⟩
  · exact ⟨[], by simp [applySuccess, h]⟩

theorem processBatch_cons_ok (outcome : PendingOperation → RemoteOutcome)
    (op : PendingOperation) (rest : List PendingOperation) (s : WorkerState)
    (itemId rev : Nat) (h : outcome op = RemoteOutcome.ok itemId rev) :
    processBatch outcome (op :: rest) s =
      processBatch outcome rest
        (applySuccess { s with attempted := s.attempted ++ [op.id] } op itemId rev) := by
  simp only [processBatch, h]

theorem processBatch_cons_rl (outcome : PendingOperation → RemoteOutcome)
    (op : PendingOperation) (rest : List PendingOperation) (s : WorkerState)
    (msg : String) (h : outcome op = RemoteOutcome.err msg)
    (hrl : isRateLimit msg = true) :
    processBatch outcome (op :: rest) s =
      { s with attempted := s.attempted ++ [op.id] } := by
  simp only [processBatch, h, hrl, if_true]

theorem processBatch_cons_dup (outcome : PendingOperation → RemoteOutcome)
    (op : PendingOperation) (rest : List PendingOperation) (s : WorkerState)
    (msg : String) (h : outcome op = RemoteOutcome.err msg)
    (hrl : isRateLimit msg = false) (hd : op.type = OpType.create_list)
    (hdup : isDupCreateMsg msg = true) :
    processBatch outcome (op :: rest) s =
      processBatch outcome rest
        { lists := markListSynced s.lists op.listId
          events := s.events ++ [SyncEvent.listSynced op.listId]
          attempted := s.attempted ++ [op.id]
          processed := s.processed ++ [op.id] } := by
  simp only [processBatch, h, hrl, hd, hdup, Bool.false_eq_true, if_false, and_self,
    if_true, true_and]

theorem processBatch_cons_nf (outcome : PendingOperation → RemoteOutcome)
    (op : PendingOperation) (rest : List PendingOperation) (s : WorkerState)
    (msg : String) (h : outcome op = RemoteOutcome.err msg)
    (hrl : isRateLimit msg = false)
    (hnd : ¬(op.type = OpType.create_list ∧ isDupCreateMsg msg = true))
    (hnf : isItemNotFound msg = true) :
    processBatch outcome (op :: rest) s =
      processBatch outcome rest
        { s with attempted := s.attempted ++ [op.id]
                 processed := s.processed ++ [op.id] } := by
  simp only [processBatch, h, hrl, hnd, hnf, Bool.false_eq_true, if_false, if_true]

theorem processBatch_cons_other (outcome : PendingOperation → RemoteOutcome)
    (op : PendingOperation) (rest : List PendingOperation) (s : WorkerState)
    (msg : String) (h : outcome op = RemoteOutcome.err msg)
    (hrl : isRateLimit msg = false)
    (hnd : ¬(op.type = OpType.create_list ∧ isDupCreateMsg msg = true))
    (hnf : isItemNotFound msg = false) :
    processBatch outcome (op :: rest) s =
      processBatch outcome rest { s with attempted := s.attempted ++ [op.id] } := by
  simp only [processBatch, h, hrl, hnd, hnf, Bool.false_eq_true, if_false]

theorem opTerminal_ok (outcome : PendingOperation → RemoteOutcome)
    (op : PendingOperation) (itemId rev : Nat)
    (h : outcome op = RemoteOutcome.ok itemId rev) :
    opTerminal outcome op = true := by
  simp [opTerminal, h]

theorem opTerminal_dup (outcome : PendingOperation → RemoteOutcome)
    (op : PendingOperation) (msg : String) (h : outcome op = RemoteOutcome.err msg)
    (hrl : isRateLimit msg = false) (hd : op.type = OpType.create_list)
    (hdup : isDupCreateMsg msg = true) :
    opTerminal outcome op = true := by
  simp [opTerminal, h, hrl, hd, hdup]

theorem opTerminal_nf (outcome : PendingOperation → RemoteOutcome)
    (op : PendingOperation) (msg : String) (h : outcome op = RemoteOutcome.err msg)
    (hrl : isRateLimit msg = false) (hnf : isItemNotFound msg = true) :
    opTerminal outcome op = true := by
  simp [opTerminal, h, hrl, hnf]

theorem opTerminal_other (outcome : PendingOperation → RemoteOutcome)
    (op : PendingOperation) (msg : String) (h : outcome op = RemoteOutcome.err msg)
    (hrl : isRateLimit msg = false)
    (hnd : ¬(op.type = OpType.create_list ∧ isDupCreateMsg msg = true))
    (hnf : isItemNotFound msg = false) :
    opTerminal outcome op = false := by
  simp only [opTerminal, h, hrl, hnf, Bool.not_false, Bool.true_and, Bool.or_false]
  by_cases ha : op.type = OpType.create_list
  · cases hb : isDupCreateMsg msg with
    | false => simp [ha, hb]
    | true => exact absurd ⟨ha, hb⟩ hnd
  · simp [ha]

theorem opTerminal_rl (outcome : PendingOperation → RemoteOutcome)
    (op : PendingOperation) (msg : String) (h : outcome op = RemoteOutcome.err msg)
    (hrl : isRateLimit msg = true) :
    opTerminal outcome op = false := by
  simp [opTerminal, h, hrl]

theorem processBatch_mono (outcome : PendingOperation → RemoteOutcome)
    (batch : List PendingOperation) :
    ∀ s : WorkerState, ∃ p e a,
      (processBatch outcome batch s).processed = s.processed ++ p ∧
      (processBatch outcome batch s).events = s.events ++ e ∧
      (processBatch outcome batch s).attempted = s.attempted ++ a := by
  induction batch with
  | nil =>
    intro s
    exact ⟨[], [], [], by simp [processBatch_nil], by simp [processBatch_nil],
      by simp [processBatch_nil]⟩
  | cons op rest ih =>
    intro s
    cases ho : outcome op with
    | ok itemId rev =>
      rw [processBatch_cons_ok outcome op rest s itemId rev ho]
      obtain ⟨p, e, a, hp, he, ha⟩ :=
        ih (applySuccess { s with attempted := s.attempted ++ [op.id] } op itemId rev)
      have h1 := applySuccess_processed { s with attempted := s.attempted ++ [op.id] }
        op itemId rev
      obtain ⟨e0, he0⟩ := applySuccess_events { s with attempted := s.attempted ++ [op.id] }
        op itemId rev
      refine ⟨[op.id] ++ p, e0 ++ e, [op.id] ++ a, ?_, ?_, ?_⟩
      · rw [hp, h1.1]; simp
      · rw [he, he0]; simp
      · rw [ha, h1.2]; simp
    | err msg =>
      by_cases hrl : isRateLimit msg = true
      · rw [processBatch_cons_rl outcome op rest s msg ho hrl]
        exact ⟨[], [], [op.id], by simp, by simp, by simp⟩
      · have hrl' : isRateLimit msg = false := by
          cases hb : isRateLimit msg with
          | false => rfl
          | true => exact absurd hb hrl
        by_cases hd : op.type = OpType.create_list ∧ isDupCreateMsg msg = true
        · rw [processBatch_cons_dup outcome op rest s msg ho hrl' hd.1 hd.2]
          obtain ⟨p, e, a, hp, he, ha⟩ := ih
            { lists := markListSynced s.lists op.listId
              events := s.events ++ [SyncEvent.listSynced op.listId]
              attempted := s.attempted ++ [op.id]
              processed := s.processed ++ [op.id] }
          refine ⟨[op.id] ++ p, [SyncEvent.listSynced op.listId] ++ e, [op.id] ++ a,
            ?_, ?_, ?_⟩
          · rw [hp]; simp
          · rw [he]; simp
          · rw [ha]; simp
        · by_cases hnf : isItemNotFound msg = true
          · rw [processBatch_cons_nf outcome op rest s msg ho hrl' hd hnf]
            obtain ⟨p, e, a, hp, he, ha⟩ := ih
              { s with attempted := s.attempted ++ [op.id]
                       processed := s.processed ++ [op.id] }
            refine ⟨[op.id] ++ p, e, [op.id] ++ a, ?_, ?_, ?_⟩
            · rw [hp]; simp
            · rw [he]
            · rw [ha]; simp
          · have hnf' : isItemNotFound msg = false := by
              cases hb : isItemNotFound msg with
              | false => rfl
              | true => exact absurd hb hnf
            rw [processBatch_cons_other outcome op rest s msg ho hrl' hd hnf']
            obtain ⟨p, e, a, hp, he, ha⟩ := ih
              { s with attempted := s.attempted ++ [op.id] }
            refine ⟨p, e, [op.id] ++ a, ?_, ?_, ?_⟩
            · rw [hp]
            · rw [he]
            · rw [ha]; simp

theorem processBatch_processed_spec (outcome : PendingOperation → RemoteOutcome)
    (batch : List PendingOperation) :
    ∀ s : WorkerState, ∀ i ∈ (processBatch outcome batch s).processed,
      i ∈ s.processed ∨ ∃ op ∈ batch, op.id = i ∧ opTerminal outcome op = true := by
  induction batch with
  | nil =>
    intro s i hi
    rw [processBatch_nil] at hi
    exact Or.inl hi
  | cons op rest ih =>
    intro s i hi
    cases ho : outcome op with
    | ok itemId rev =>
      rw [processBatch_cons_ok outcome op rest s itemId rev ho] at hi
      rcases ih _ i hi with h0 | h0
      · rw [(applySuccess_processed _ op itemId rev).1] at h0
        simp only [List.mem_append, List.mem_singleton] at h0
        rcases h0 with h0 | h0
        · exact Or.inl h0
        · exact Or.inr ⟨op, List.mem_cons_self op rest, h0.symm,
            opTerminal_ok outcome op itemId rev ho⟩
      · obtain ⟨o, ho', hid, ht⟩ := h0
        exact Or.inr ⟨o, List.mem_cons_of_mem op ho', hid, ht⟩
    | err msg =>
      by_cases hrl : isRateLimit msg = true
      · rw [processBatch_cons_rl outcome op rest s msg ho hrl] at hi
        exact Or.inl hi
      · have hrl' : isRateLimit msg = false := by
          cases hb : isRateLimit msg with
          | false => rfl
          | true => exact absurd hb hrl
        by_cases hd : op.type = OpType.create_list ∧ isDupCreateMsg msg = true
        · rw [processBatch_cons_dup outcome op rest s msg ho hrl' hd.1 hd.2] at hi
          rcases ih _ i hi with h0 | h0
          · simp only [List.mem_append, List.mem_singleton] at h0
            rcases h0 with h0 | h0
            · exact Or.inl h0
            · exact Or.inr ⟨op, List.mem_cons_self op rest, h0.symm,
                opTerminal_dup outcome op msg ho hrl' hd.1 hd.2⟩
          · obtain ⟨o, ho', hid, ht⟩ := h0
            exact Or.inr ⟨o, List.mem_cons_of_mem op ho', hid, ht⟩
        · by_cases hnf : isItemNotFound msg = true
          · rw [processBatch_cons_nf outcome op rest s msg ho hrl' hd hnf] at hi
            rcases ih _ i hi with h0 | h0
            · simp only [List.mem_append, List.mem_singleton] at h0
              rcases h0 with h0 | h0
              · exact Or.inl h0
              · exact Or.inr ⟨op, List.mem_cons_self op rest, h0.symm,
                  opTerminal_nf outcome op msg ho hrl' hnf⟩
            · obtain ⟨o, ho', hid, ht⟩ := h0
              exact Or.inr ⟨o, List.mem_cons_of_mem op ho', hid, ht⟩
          · have hnf' : isItemNotFound msg = false := by
              cases hb : isItemNotFound msg with
              | false => rfl
              | true => exact absurd hb hnf
            rw [processBatch_cons_other outcome op rest s msg ho hrl' hd hnf'] at hi
            rcases ih _ i hi with h0 | h0
            · exact Or.inl h0
            · obtain ⟨o, ho', hid, ht⟩ := h0
              exact Or.inr ⟨o, List.mem_cons_of_mem op ho', hid, ht⟩

theorem processBatch_append (outcome : PendingOperation → RemoteOutcome)
    (pre rest : List PendingOperation)
    (h : ∀ o ∈ pre, ∀ msg, outcome o = RemoteOutcome.err msg → isRateLimit msg = false) :
    ∀ s : WorkerState, processBatch outcome (pre ++ rest) s =
      processBatch outcome rest (processBatch outcome pre s) := by
  induction pre with
  | nil => intro s; simp [processBatch_nil]
  | cons o pre' ih =>
    intro s
    have htail : ∀ o' ∈ pre', ∀ msg, outcome o' = RemoteOutcome.err msg →
        isRateLimit msg = false :=
      fun o' ho' => h o' (List.mem_cons_of_mem o ho')
    cases ho : outcome o with
    | ok itemId rev =>
      rw [List.cons_append, processBatch_cons_ok outcome o (pre' ++ rest) s itemId rev ho,
        processBatch_cons_ok outcome o pre' s itemId rev ho]
      exact ih htail _
    | err msg =>
      have hrl : isRateLimit msg = false := h o (List.mem_cons_self o pre') msg ho
      by_cases hd : o.type = OpType.create_list ∧ isDupCreateMsg msg = true
      · rw [List.cons_append, processBatch_cons_dup outcome o (pre' ++ rest) s msg ho hrl hd.1 hd.2,
          processBatch_cons_dup outcome o pre' s msg ho hrl hd.1 hd.2]
        exact ih htail _
      · by_cases hnf : isItemNotFound msg = true
        · rw [List.cons_append, processBatch_cons_nf outcome o (pre' ++ rest) s msg ho hrl hd hnf,
            processBatch_cons_nf outcome o pre' s msg ho hrl hd hnf]
          exact ih htail _
        · have hnf' : isItemNotFound msg = false := by
            cases hb : isItemNotFound msg with
            | false => rfl
            | true => exact absurd hb hnf
          rw [List.cons_append, processBatch_cons_other outcome o (pre' ++ rest) s msg ho hrl hd hnf',
            processBatch_cons_other outcome o pre' s msg ho hrl hd hnf']
          exact ih htail _

theorem processBatch_attempted_no_rl (outcome : PendingOperation → RemoteOutcome)
    (b : List PendingOperation)
    (h : ∀ o ∈ b, ∀ msg, outcome o = RemoteOutcome.err msg → isRateLimit msg = false) :
    ∀ s : WorkerState, (processBatch outcome b s).attempted =
      s.attempted ++ b.map (fun o => o.id) := by
  induction b with
  | nil => intro s; simp [processBatch_nil]
  | cons o rest ih =>
    intro s
    have htail : ∀ o' ∈ rest, ∀ msg, outcome o' = RemoteOutcome.err msg →
        isRateLimit msg = false :=
      fun o' ho' => h o' (List.mem_cons_of_mem o ho')
    cases ho : outcome o with
    | ok itemId rev =>
      rw [processBatch_cons_ok outcome o rest s itemId rev ho, ih htail,
        (applySuccess_processed _ o itemId rev).2]
      simp
    | err msg =>
      have hrl : isRateLimit msg = false := h o (List.mem_cons_self o rest) msg ho
      by_cases hd : o.type = OpType.create_list ∧ isDupCreateMsg msg = true
      · rw [processBatch_cons_dup outcome o rest s msg ho hrl hd.1 hd.2, ih htail]
        simp
      · by_cases hnf : isItemNotFound msg = true
        · rw [processBatch_cons_nf outcome o rest s msg ho hrl hd hnf, ih htail]
          simp
        · have hnf' : isItemNotFound msg = false := by
            cases hb : isItemNotFound msg with
            | false => rfl
            | true => exact absurd hb hnf
          rw [processBatch_cons_other outcome o rest s msg ho hrl hd hnf', ih htail]
          simp

theorem processBatch_processed_no_rl (outcome : PendingOperation → RemoteOutcome)
    (b : List PendingOperation)
    (h : ∀ o ∈ b, ∀ msg, outcome o = RemoteOutcome.err msg → isRateLimit msg = false) :
    ∀ s : WorkerState, (processBatch outcome b s).processed =
      s.processed ++ (b.filter (fun o => opTerminal outcome o)).map (fun o => o.id) := by
  induction b with
  | nil => intro s; simp [processBatch_nil]
  | cons o rest ih =>
    intro s
    have htail : ∀ o' ∈ rest, ∀ msg, outcome o' = RemoteOutcome.err msg →
        isRateLimit msg = false :=
      fun o' ho' => h o' (List.mem_cons_of_mem o ho')
    cases ho : outcome o with
    | ok itemId rev =>
      rw [processBatch_cons_ok outcome o rest s itemId rev ho, ih htail,
        (applySuccess_processed _ o itemId rev).1]
      rw [List.filter_cons_of_pos (by simp [opTerminal_ok outcome o itemId rev ho])]
      simp
    | err msg =>
      have hrl : isRateLimit msg = false := h o (List.mem_cons_self o rest) msg ho
      by_cases hd : o.type = OpType.create_list ∧ isDupCreateMsg msg = true
      · rw [processBatch_cons_dup outcome o rest s msg ho hrl hd.1 hd.2, ih htail]
        rw [List.filter_cons_of_pos (by simp [opTerminal_dup outcome o msg ho hrl hd.1 hd.2])]
        simp
      · by_cases hnf : isItemNotFound msg = true
        · rw [processBatch_cons_nf outcome o rest s msg ho hrl hd hnf, ih htail]
          rw [List.filter_cons_of_pos (by simp [opTerminal_nf outcome o msg ho hrl hnf])]
          simp
        · have hnf' : isItemNotFound msg = false := by
            cases hb : isItemNotFound msg with
            | false => rfl
            | true => exact absurd hb hnf
          rw [processBatch_cons_other outcome o rest s msg ho hrl hd hnf', ih htail]
          rw [List.filter_cons_of_neg
            (by simp [opTerminal_other outcome o msg ho hrl hd hnf'])]

theorem processBatch_attempted_head (outcome : PendingOperation → RemoteOutcome)
    (op : PendingOperation) (rest : List PendingOperation) (s : WorkerState) :
    op.id ∈ (processBatch outcome (op :: rest) s).attempted := by
  cases ho : outcome op with
  | ok itemId rev =>
    rw [processBatch_cons_ok outcome op rest s itemId rev ho]
    obtain ⟨p, e, a, _, _, ha⟩ := processBatch_mono outcome rest
      (applySuccess { s with attempted := s.attempted ++ [op.id] } op itemId rev)
    rw [ha, (applySuccess_processed _ op itemId rev).2]
    simp
  | err msg =>
    by_cases hrl : isRateLimit msg = true
    · rw [processBatch_cons_rl outcome op rest s msg ho hrl]
      simp
    · have hrl' : isRateLimit msg = false := by
        cases hb : isRateLimit msg with
        | false => rfl
        | true => exact absurd hb hrl
      by_cases hd : op.type = OpType.create_list ∧ isDupCreateMsg msg = true
      · rw [processBatch_cons_dup outcome op rest s msg ho hrl' hd.1 hd.2]
        obtain ⟨p, e, a, _, _, ha⟩ := processBatch_mono outcome rest
          { lists := markListSynced s.lists op.listId
            events := s.events ++ [SyncEvent.listSynced op.listId]
            attempted := s.attempted ++ [op.id]
            processed := s.processed ++ [op.id] }
        rw [ha]
        simp
      · by_cases hnf : isItemNotFound msg = true
        · rw [processBatch_cons_nf outcome op rest s msg ho hrl' hd hnf]
          obtain ⟨p, e, a, _, _, ha⟩ := processBatch_mono outcome rest
            { s with attempted := s.attempted ++ [op.id]
                     processed := s.processed ++ [op.id] }
          rw [ha]
          simp
        · have hnf' : isItemNotFound msg = false := by
            cases hb : isItemNotFound msg with
            | false => rfl
            | true => exact absurd hb hnf
          rw [processBatch_cons_other outcome op rest s msg ho hrl' hd hnf']
          obtain ⟨p, e, a, _, _, ha⟩ := processBatch_mono outcome rest
            { s with attempted := s.attempted ++ [op.id] }
          rw [ha]
          simp

theorem removeOperations_dropped (queue : List PendingOperation) (ids : List String)
    (op : PendingOperation) (hop : op ∈ queue)
    (h : op ∉ removeOperations queue ids) : op.id ∈ ids := by
  unfold removeOperations at h
  by_cases he : ids.isEmpty
  · simp [he] at h
    exact absurd hop h
  · simp only [he, Bool.false_eq_true, if_false] at h
    by_contra hmem
    apply h
    simp [List.mem_filter, hop, hmem]

theorem removeOperations_keeps (queue : List PendingOperation) (ids : List String)
    (op : PendingOperation) (hop : op ∈ queue) (hid : op.id ∉ ids) :
    op ∈ removeOperations queue ids := by
  unfold removeOperations
  by_cases he : ids.isEmpty
  · simp [he, hop]
  · simp only [he, Bool.false_eq_true, if_false]
    simp [List.mem_filter, hop, hid]

theorem removeOperations_removes (queue : List PendingOperation) (ids : List String)
    (op : PendingOperation) (hid : op.id ∈ ids) :
    op ∉ removeOperations queue ids := by
  intro hmem
  unfold removeOperations at hmem
  by_cases he : ids.isEmpty
  · rw [List.isEmpty_iff.1 he] at hid
    simp at hid
  · simp only [he, Bool.false_eq_true, if_false] at hmem
    have := (List.mem_filter.1 hmem).2
    simp [hid] at this

theorem runSyncOnce_queue_cases (inp : SyncInputs) (st : SyncState) :
    (runSyncOnce inp st).state.queue = st.queue ∨
    (runSyncOnce inp st).state.queue =
      removeOperations st.queue
        (processBatch inp.outcome (st.queue.take 3) ⟨st.lists, [], [], []⟩).processed := by
  unfold runSyncOnce
  by_cases h1 : st.running
  · simp [h1]
  · by_cases h2 : (acquireLock inp.now inp.runId (inp.lockRead st.lock)
        inp.lockWriteThrows st.lock).1 = false
    · simp [h1, h2]
    · by_cases h3 : inp.online = false
      · simp [h1, h2, h3]
      · by_cases h4 : st.queue.isEmpty
        · simp [h1, h2, h3, h4]
        · simp [h1, h2, h3, h4]

/-- C2: after any run of the sync worker, an operation that was in the queue
at the start is absent afterwards only if its remote call's outcome was
terminal — success, a duplicate/already-exists response on `create_list`, or
an item-not-found response; an operation whose call would fail with any
other (transient, unrecognized, or rate-limit) error is still in the queue
after the run. -/
theorem C2_no_silent_drop (inp : SyncInputs) (st : SyncState)
    (hnodup : (st.queue.map (fun o => o.id)).Nodup) :
    (∀ op ∈ st.queue, op ∉ (runSyncOnce inp st).state.queue →
      opTerminal inp.outcome op = true) ∧
    (∀ op ∈ st.queue, opTerminal inp.outcome op = false →
      op ∈ (runSyncOnce inp st).state.queue) := by
  have hdrop : ∀ op ∈ st.queue, op ∉ (runSyncOnce inp st).state.queue →
      opTerminal inp.outcome op = true := by
    intro op hop hout
    rcases runSyncOnce_queue_cases inp st with hq | hq
    · rw [hq] at hout
      exact absurd hop hout
    · rw [hq] at hout
      have hid := removeOperations_dropped st.queue _ op hop hout
      rcases processBatch_processed_spec inp.outcome (st.queue.take 3)
          ⟨st.lists, [], [], []⟩ op.id hid with h0 | h0
      · simp at h0
      · obtain ⟨o, ho, hoid, ht⟩ := h0
        have hoq : o ∈ st.queue := List.mem_of_mem_take ho
        have : o = op := List.inj_on_of_nodup_map hnodup hoq hop hoid
        rw [← this]
        exact ht
  refine ⟨hdrop, ?_⟩
  intro op hop hterm
  by_cases hmem : op ∈ (runSyncOnce inp st).state.queue
  · exact hmem
  · rw [hdrop op hop hmem] at hterm
    exact absurd hterm (by simp)

/-- Operation used in the C2 witness run: acknowledged by the server. -/
def c2OpA : PendingOperation :=
  ⟨"a", OpType.create_item, "L", 0, "ct", "nn", 0⟩

/-- Operation used in the C2 witness run: fails with a transient error. -/
def c2OpB : PendingOperation :=
  ⟨"b", OpType.update_item, "L", 5, "ct2", "nn2", 0⟩

/-- Outcome oracle of the C2 witness run. -/
def c2Outcome : PendingOperation → RemoteOutcome := fun op =>
  if op.id = "a" then RemoteOutcome.ok 7 3
  else RemoteOutcome.err "Network request failed"

/-- Inputs of the C2 witness run. -/
def c2Inp : SyncInputs := ⟨1000, "run", true, lockReadOf, false, c2Outcome⟩

/-- Initial state of the C2 witness run. -/
def c2St : SyncState := ⟨false, none, [c2OpA, c2OpB], []⟩

theorem C2_no_silent_drop_witness :
    (c2St.queue.map (fun o => o.id)).Nodup ∧
    (∀ op ∈ c2St.queue, opTerminal c2Inp.outcome op = false →
      op ∈ (runSyncOnce c2Inp c2St).state.queue) ∧
    (runSyncOnce c2Inp c2St).state.queue = [c2OpB] :=
  ⟨by decide, (C2_no_silent_drop c2Inp c2St (by decide)).2, by decide⟩

/-- C9: loading the persisted operation queue and the persisted list
registry never surfaces an error: an absent value, a value `JSON.parse`
rejects, and a parsed non-array value all load as the empty list — the
corrupted durable record is silently reset instead of failing. -/
theorem C9_corrupt_load_resets :
    loadQueue StoredValue.absent = [] ∧ loadQueue StoredValue.invalid = [] ∧
    loadQueue StoredValue.notArray = [] ∧
    loadStoredLists StoredValue.absent = [] ∧
    loadStoredLists StoredValue.invalid = [] ∧
    loadStoredLists StoredValue.notArray = [] :=
  ⟨rfl, rfl, rfl, rfl, rfl, rfl⟩

theorem updateCreateItemOpCipher_fresh (pre : List PendingOperation)
    (op : PendingOperation) (ct n : String)
    (hty : op.type = OpType.create_item)
    (hfresh : ∀ o ∈ pre, o.id ≠ op.id) :
    updateCreateItemOpCipher (pre ++ [op]) op.id ct n =
      pre ++ [{ op with ciphertextB64 := ct, nonceB64 := n }] := by
  induction pre with
  | nil => simp [updateCreateItemOpCipher, hty]
  | cons o pre' ih =>
    have ho : ¬(o.type = OpType.create_item ∧ o.id = op.id) := by
      rintro ⟨h1, h2⟩
      exact hfresh o (List.mem_cons_self o pre') h2
    simp only [List.cons_append, updateCreateItemOpCipher, ho, if_false]
    rw [List.append_eq, ih (fun o' ho' => hfresh o' (List.mem_cons_of_mem o ho'))]

/-- C6: enqueueing a `create_item` and then rewriting its payload twice via
`updateCreateItemOpCipher` (before any sync run) leaves the queue equal to
the original queue plus exactly that one operation carrying the latest
payload: the ids and their order are unchanged, the length is unchanged,
and exactly one `create_item` operation with that operation id exists. -/
theorem C6_payload_rewrite (q0 : List PendingOperation) (op : PendingOperation)
    (ct1 n1 ct2 n2 : String)
    (hty : op.type = OpType.create_item)
    (hfresh : ∀ o ∈ q0, o.id ≠ op.id) :
    updateCreateItemOpCipher
        (updateCreateItemOpCipher (enqueueCreateItem q0 op) op.id ct1 n1)
        op.id ct2 n2 =
      q0 ++ [{ op with ciphertextB64 := ct2, nonceB64 := n2 }] ∧
    (updateCreateItemOpCipher
        (updateCreateItemOpCipher (enqueueCreateItem q0 op) op.id ct1 n1)
        op.id ct2 n2).map (fun o => o.id) =
      (enqueueCreateItem q0 op).map (fun o => o.id) ∧
    (updateCreateItemOpCipher
        (updateCreateItemOpCipher (enqueueCreateItem q0 op) op.id ct1 n1)
        op.id ct2 n2).length = (enqueueCreateItem q0 op).length ∧
    ((updateCreateItemOpCipher
        (updateCreateItemOpCipher (enqueueCreateItem q0 op) op.id ct1 n1)
        op.id ct2 n2).filter
        (fun o => decide (o.type = OpType.create_item ∧ o.id = op.id))).length = 1 := by
  have h1 : updateCreateItemOpCipher (enqueueCreateItem q0 op) op.id ct1 n1 =
      q0 ++ [{ op with ciphertextB64 := ct1, nonceB64 := n1 }] :=
    updateCreateItemOpCipher_fresh q0 op ct1 n1 hty hfresh
  have h2 : updateCreateItemOpCipher
      (q0 ++ [{ op with ciphertextB64 := ct1, nonceB64 := n1 }]) op.id ct2 n2 =
      q0 ++ [{ op with ciphertextB64 := ct2, nonceB64 := n2 }] := by
    have := updateCreateItemOpCipher_fresh q0
      { op with ciphertextB64 := ct1, nonceB64 := n1 } ct2 n2 hty hfresh
    exact this
  have hchain : updateCreateItemOpCipher
      (updateCreateItemOpCipher (enqueueCreateItem q0 op) op.id ct1 n1)
      op.id ct2 n2 = q0 ++ [{ op with ciphertextB64 := ct2, nonceB64 := n2 }] := by
    rw [h1, h2]
  refine ⟨hchain, ?_, ?_, ?_⟩
  · rw [hchain]
    simp [enqueueCreateItem]
  · rw [hchain]
    simp [enqueueCreateItem]
  · rw [hchain, List.filter_append]
    have hq0 : q0.filter (fun o => decide (o.type = OpType.create_item ∧ o.id = op.id)) = [] := by
      rw [List.filter_eq_nil_iff]
      intro o ho
      simp only [decide_eq_true_eq, not_and]
      intro _
      exact hfresh o ho
    rw [hq0]
    simp [hty]

/-- Queue used by the C6 witness before the enqueue. -/
def c6Q0 : List PendingOperation :=
  [⟨"x", OpType.create_list, "L", 0, "mc", "mn", 0⟩]

/-- The not-yet-synced `create_item` operation of the C6 witness. -/
def c6Op : PendingOperation := ⟨"w", OpType.create_item, "L", 0, "c0", "m0", 0⟩

theorem C6_payload_rewrite_witness :
    (c6Op.type = OpType.create_item ∧ (∀ o ∈ c6Q0, o.id ≠ c6Op.id)) ∧
    updateCreateItemOpCipher
        (updateCreateItemOpCipher (enqueueCreateItem c6Q0 c6Op) c6Op.id "c1" "m1")
        c6Op.id "c2" "m2" =
      c6Q0 ++ [{ c6Op with ciphertextB64 := "c2", nonceB64 := "m2" }] :=
  ⟨⟨rfl, by decide⟩,
    (C6_payload_rewrite c6Q0 c6Op "c1" "m1" "c2" "m2" rfl (by decide)).1⟩

/-- The registry invariant claimed by the spec: `lastSeenRev ≤ lastRemoteRev`
whenever both are non-null. -/
def revInvariant (l : StoredList) : Bool :=
  match l.lastSeenRev, l.lastRemoteRev with
  | some sr, some rr => decide (sr ≤ rr)
  | _, _ => true

/-- Registry entry of the C5 counterexample: both revs are 3. -/
def c5List : StoredList := ⟨"L", "key", "name", some 3, some 3, false, false⟩

/-- Queued `create_item` operation of the C5 counterexample. -/
def c5Op : PendingOperation := ⟨"op1", OpType.create_item, "L", 0, "ct", "nn", 0⟩

/-- Inputs of the C5 counterexample run: the server acknowledges the created
item with revision 4. -/
def c5Inp : SyncInputs :=
  ⟨1000, "run", true, lockReadOf, false, fun _ => RemoteOutcome.ok 9 4⟩

/-- Initial state of the C5 counterexample run. -/
def c5St : SyncState := ⟨false, none, [c5Op], [c5List]⟩

theorem C5_counterexample :
    c5St.lists.all revInvariant = true ∧
    (runSyncOnce c5Inp c5St).state.lists.all revInvariant = false := by
  exact ⟨by decide, by decide⟩

/-- C5 amended: `loadStoredLists` establishes the invariant for entries whose
persisted `lastRemoteRev` is not a number (it is defaulted to `lastSeenRev`),
and `markListSynced` preserves it; but the sync worker's acknowledgement
handler `updateLastSeenRev` preserves it only when the written revision is
bounded by the list's `lastRemoteRev` — with a larger server revision (the
normal case for a fresh acknowledgement) the invariant is broken, as the
counterexample shows. -/
theorem C5_amended :
    (∀ r : RawStoredList, r.lastRemoteRev = none →
      revInvariant (normalizeStoredList r) = true) ∧
    (∀ (lists : List StoredList) (listId : String) (rev : Nat),
      (∀ l ∈ lists, revInvariant l = true) →
      (∀ l ∈ lists, l.listId = listId → ∀ rr, l.lastRemoteRev = some rr → rev ≤ rr) →
      ∀ l ∈ updateLastSeenRev lists listId rev, revInvariant l = true) ∧
    (∀ (lists : List StoredList) (listId : String),
      (∀ l ∈ lists, revInvariant l = true) →
      ∀ l ∈ markListSynced lists listId, revInvariant l = true) := by
  refine ⟨?_, ?_, ?_⟩
  · intro r h
    cases hs : r.lastSeenRev with
    | none => simp [revInvariant, normalizeStoredList, h, hs]
    | some sr => simp [revInvariant, normalizeStoredList, h, hs]
  · intro lists listId rev
    induction lists with
    | nil =>
      intro _ _ l hl
      simp [updateLastSeenRev] at hl
    | cons l0 rest ih =>
      intro hinv hbound l hl
      by_cases h0 : l0.listId = listId
      · rw [show updateLastSeenRev (l0 :: rest) listId rev =
            { l0 with lastSeenRev := some rev } :: rest by
          simp only [updateLastSeenRev]; rw [if_pos h0]] at hl
        rcases List.mem_cons.1 hl with hl0 | hl0
        · rw [hl0]
          cases hr : l0.lastRemoteRev with
          | none => simp [revInvariant, hr]
          | some rr =>
            have hb := hbound l0 (List.mem_cons_self l0 rest) h0 rr hr
            simp [revInvariant, hr, hb]
        · exact hinv l (List.mem_cons_of_mem l0 hl0)
      · rw [show updateLastSeenRev (l0 :: rest) listId rev =
            l0 :: updateLastSeenRev rest listId rev by
          simp only [updateLastSeenRev]; rw [if_neg h0]] at hl
        rcases List.mem_cons.1 hl with hl0 | hl0
        · rw [hl0]
          exact hinv l0 (List.mem_cons_self l0 rest)
        · exact ih (fun l' hl' => hinv l' (List.mem_cons_of_mem l0 hl'))
            (fun l' hl' => hbound l' (List.mem_cons_of_mem l0 hl')) l hl0
  · intro lists listId
    induction lists with
    | nil =>
      intro _ l hl
      simp [markListSynced] at hl
    | cons l0 rest ih =>
      intro hinv l hl
      by_cases h0 : l0.listId = listId
      · rw [show markListSynced (l0 :: rest) listId =
            { l0 with pendingCreate := false } :: rest by
          simp only [markListSynced]; rw [if_pos h0]] at hl
        rcases List.mem_cons.1 hl with hl0 | hl0
        · rw [hl0,
            show revInvariant { l0 with pendingCreate := false } = revInvariant l0 from rfl]
          exact hinv l0 (List.mem_cons_self l0 rest)
        · exact hinv l (List.mem_cons_of_mem l0 hl0)
      · rw [show markListSynced (l0 :: rest) listId =
            l0 :: markListSynced rest listId by
          simp only [markListSynced]; rw [if_neg h0]] at hl
        rcases List.mem_cons.1 hl with hl0 | hl0
        · rw [hl0]
          exact hinv l0 (List.mem_cons_self l0 rest)
        · exact ih (fun l' hl' => hinv l' (List.mem_cons_of_mem l0 hl')) l hl0

/-- Raw registry entry used by the C5 amended witness. -/
def c5Raw : RawStoredList := ⟨"L", "key", some "name", some 2, none, false, false⟩

theorem C5_amended_witness :
    revInvariant (normalizeStoredList c5Raw) = true ∧
    (∀ l ∈ updateLastSeenRev [c5List] "L" 3, revInvariant l = true) :=
  ⟨C5_amended.1 c5Raw rfl,
    C5_amended.2.1 [c5List] "L" 3 (by decide) (by decide)⟩

/-- C10: a throwing lock store forfeits mutual exclusion instead of blocking
synchronization: `acquireLock` returns true when the read of the lock record
throws (no matter the store) and when the write of the new record throws
(absent, malformed or stale record), and a run whose lock read throws still
proceeds to the health probe and to the first queued operation's remote
call. -/
theorem C10_lock_fails_open (inp : SyncInputs) (st : SyncState)
    (hrun : st.running = false)
    (hread : inp.lockRead st.lock = LockRead.threw)
    (honline : inp.online = true)
    (hq : st.queue ≠ []) :
    (∀ (now : Nat) (runId : String) (writeThrows : Bool) (store : Option LockRec),
      acquireLock now runId LockRead.threw writeThrows store = (true, store)) ∧
    (∀ (now : Nat) (runId : String) (store : Option LockRec),
      (acquireLock now runId LockRead.absent true store).1 = true) ∧
    (∀ (now : Nat) (runId : String) (store : Option LockRec),
      (acquireLock now runId LockRead.malformed true store).1 = true) ∧
    (∀ (now : Nat) (runId : String) (store : Option LockRec) (rec : LockRec),
      lockFresh now rec = false →
      (acquireLock now runId (LockRead.valid rec) true store).1 = true) ∧
    (runSyncOnce inp st).healthzCalled = true ∧
    (∀ op, st.queue.head? = some op → op.id ∈ (runSyncOnce inp st).attempted) := by
  have hacq : acquireLock inp.now inp.runId (inp.lockRead st.lock)
      inp.lockWriteThrows st.lock = (true, st.lock) := by
    rw [hread]
    rfl
  refine ⟨fun _ _ _ _ => rfl, fun _ _ _ => by simp [acquireLock],
    fun _ _ _ => by simp [acquireLock],
    fun now runId store rec hfresh => by simp [acquireLock, hfresh], ?_, ?_⟩
  · unfold runSyncOnce
    rw [if_neg (by simp [hrun]), hacq]
    by_cases hqe : st.queue.isEmpty <;> simp [honline, hqe]
  · intro op hop
    cases hqc : st.queue with
    | nil => exact absurd hqc hq
    | cons op0 tail =>
      rw [hqc] at hop
      simp only [List.head?_cons, Option.some_inj] at hop
      subst hop
      unfold runSyncOnce
      rw [if_neg (by simp [hrun]), hacq, hqc]
      rw [if_neg (by simp), if_neg (by simp [honline]), if_neg (by simp)]
      exact processBatch_attempted_head inp.outcome op0 (tail.take 2)
        ⟨st.lists, [], [], []⟩

/-- Inputs of the C10 witness run: every lock read throws. -/
def c10Inp : SyncInputs :=
  ⟨5, "r", true, fun _ => LockRead.threw, false, fun _ => RemoteOutcome.ok 1 1⟩

/-- Queued operation of the C10 witness run. -/
def c10Op : PendingOperation := ⟨"z", OpType.delete_item, "L", 4, "", "", 0⟩

/-- Initial state of the C10 witness run: someone else's lock is persisted,
but reading it throws. -/
def c10St : SyncState := ⟨false, some ⟨"other", 4⟩, [c10Op], []⟩

theorem C10_lock_fails_open_witness :
    (c10St.running = false ∧ c10Inp.lockRead c10St.lock = LockRead.threw ∧
      c10Inp.online = true ∧ c10St.queue ≠ []) ∧
    (runSyncOnce c10Inp c10St).healthzCalled = true :=
  ⟨⟨rfl, rfl, rfl, by decide⟩,
    (C10_lock_fails_open c10Inp c10St rfl rfl rfl (by decide)).2.2.2.2.1⟩

theorem markListSynced_listIds (ls : List StoredList) (lid : String) :
    (markListSynced ls lid).map (fun l => l.listId) = ls.map (fun l => l.listId) := by
  induction ls with
  | nil => rfl
  | cons l rest ih =>
    by_cases h : l.listId = lid
    · simp [markListSynced, h]
    · simp [markListSynced, h, ih]

theorem updateLastSeenRev_listIds (ls : List StoredList) (lid : String) (rev : Nat) :
    (updateLastSeenRev ls lid rev).map (fun l => l.listId) =
      ls.map (fun l => l.listId) := by
  induction ls with
  | nil => rfl
  | cons l rest ih =>
    by_cases h : l.listId = lid
    · simp [updateLastSeenRev, h]
    · simp [updateLastSeenRev, h, ih]

theorem applySuccess_listIds (s : WorkerState) (op : PendingOperation)
    (itemId rev : Nat) :
    (applySuccess s op itemId rev).lists.map (fun l => l.listId) =
      s.lists.map (fun l => l.listId) := by
  cases h : op.type <;>
    simp [applySuccess, h, markListSynced_listIds, updateLastSeenRev_listIds]

theorem processBatch_listIds (outcome : PendingOperation → RemoteOutcome)
    (b : List PendingOperation) :
    ∀ s : WorkerState, (processBatch outcome b s).lists.map (fun l => l.listId) =
      s.lists.map (fun l => l.listId) := by
  induction b with
  | nil => intro s; rw [processBatch_nil]
  | cons op rest ih =>
    intro s
    cases ho : outcome op with
    | ok itemId rev =>
      rw [processBatch_cons_ok outcome op rest s itemId rev ho, ih,
        applySuccess_listIds]
    | err msg =>
      by_cases hrl : isRateLimit msg = true
      · rw [processBatch_cons_rl outcome op rest s msg ho hrl]
      · have hrl' : isRateLimit msg = false := by
          cases hb : isRateLimit msg with
          | false => rfl
          | true => exact absurd hb hrl
        by_cases hd : op.type = OpType.create_list ∧ isDupCreateMsg msg = true
        · rw [processBatch_cons_dup outcome op rest s msg ho hrl' hd.1 hd.2, ih]
          simp [markListSynced_listIds]
        · by_cases hnf : isItemNotFound msg = true
          · rw [processBatch_cons_nf outcome op rest s msg ho hrl' hd hnf, ih]
          · have hnf' : isItemNotFound msg = false := by
              cases hb : isItemNotFound msg with
              | false => rfl
              | true => exact absurd hb hnf
            rw [processBatch_cons_other outcome op rest s msg ho hrl' hd hnf', ih]

/-- The registry has `pendingCreate = false` on every entry with the given
list id. -/
def PendingCleared (lid : String) (ls : List StoredList) : Prop :=
  ∀ l ∈ ls, l.listId = lid → l.pendingCreate = false

theorem markListSynced_preserves_cleared (lid lid' : String) (ls : List StoredList)
    (h : PendingCleared lid ls) : PendingCleared lid (markListSynced ls lid') := by
  induction ls with
  | nil => intro l hl; simp [markListSynced] at hl
  | cons l0 rest ih =>
    intro l hl heq
    by_cases h0 : l0.listId = lid'
    · rw [show markListSynced (l0 :: rest) lid' =
          { l0 with pendingCreate := false } :: rest by
        simp only [markListSynced]; rw [if_pos h0]] at hl
      rcases List.mem_cons.1 hl with hl0 | hl0
      · rw [hl0]
      · exact h l (List.mem_cons_of_mem l0 hl0) heq
    · rw [show markListSynced (l0 :: rest) lid' = l0 :: markListSynced rest lid' by
        simp only [markListSynced]; rw [if_neg h0]] at hl
      rcases List.mem_cons.1 hl with hl0 | hl0
      · rw [hl0]
        exact h l0 (List.mem_cons_self l0 rest) (hl0 ▸ heq)
      · exact ih (fun l' hl' => h l' (List.mem_cons_of_mem l0 hl')) l hl0 heq

theorem updateLastSeenRev_preserves_cleared (lid lid' : String) (rev : Nat)
    (ls : List StoredList) (h : PendingCleared lid ls) :
    PendingCleared lid (updateLastSeenRev ls lid' rev) := by
  induction ls with
  | nil => intro l hl; simp [updateLastSeenRev] at hl
  | cons l0 rest ih =>
    intro l hl heq
    by_cases h0 : l0.listId = lid'
    · rw [show updateLastSeenRev (l0 :: rest) lid' rev =
          { l0 with lastSeenRev := some rev } :: rest by
        simp only [updateLastSeenRev]; rw [if_pos h0]] at hl
      rcases List.mem_cons.1 hl with hl0 | hl0
      · rw [hl0]
        rw [hl0] at heq
        exact h l0 (List.mem_cons_self l0 rest) heq
      · exact h l (List.mem_cons_of_mem l0 hl0) heq
    · rw [show updateLastSeenRev (l0 :: rest) lid' rev =
          l0 :: updateLastSeenRev rest lid' rev by
        simp only [updateLastSeenRev]; rw [if_neg h0]] at hl
      rcases List.mem_cons.1 hl with hl0 | hl0
      · rw [hl0]
        exact h l0 (List.mem_cons_self l0 rest) (hl0 ▸ heq)
      · exact ih (fun l' hl' => h l' (List.mem_cons_of_mem l0 hl')) l hl0 heq

theorem markListSynced_establishes (ls : List StoredList) (lid : String)
    (hnodup : (ls.map (fun l => l.listId)).Nodup) :
    PendingCleared lid (markListSynced ls lid) := by
  induction ls with
  | nil => intro l hl; simp [markListSynced] at hl
  | cons l0 rest ih =>
    simp only [List.map_cons, List.nodup_cons] at hnodup
    intro l hl heq
    by_cases h0 : l0.listId = lid
    · rw [show markListSynced (l0 :: rest) lid =
          { l0 with pendingCreate := false } :: rest by
        simp only [markListSynced]; rw [if_pos h0]] at hl
      rcases List.mem_cons.1 hl with hl0 | hl0
      · rw [hl0]
      · exfalso
        have hmem : l.listId ∈ rest.map (fun l => l.listId) :=
          List.mem_map_of_mem _ hl0
        rw [heq, ← h0] at hmem
        exact hnodup.1 hmem
    · rw [show markListSynced (l0 :: rest) lid = l0 :: markListSynced rest lid by
        simp only [markListSynced]; rw [if_neg h0]] at hl
      rcases List.mem_cons.1 hl with hl0 | hl0
      · exact absurd (hl0 ▸ heq) h0
      · exact ih hnodup.2 l hl0 heq

theorem applySuccess_preserves_cleared (lid : String) (s : WorkerState)
    (op : PendingOperation) (itemId rev : Nat) (h : PendingCleared lid s.lists) :
    PendingCleared lid (applySuccess s op itemId rev).lists := by
  cases ht : op.type
  · simp only [applySuccess, ht]
    exact markListSynced_preserves_cleared lid op.listId s.lists h
  · simp only [applySuccess, ht]
    exact updateLastSeenRev_preserves_cleared lid op.listId rev s.lists h
  · simp only [applySuccess, ht]
    exact updateLastSeenRev_preserves_cleared lid op.listId rev s.lists h
  · simp only [applySuccess, ht]
    exact h

theorem processBatch_preserves_cleared (outcome : PendingOperation → RemoteOutcome)
    (lid : String) (b : List PendingOperation) :
    ∀ s : WorkerState, PendingCleared lid s.lists →
      PendingCleared lid (processBatch outcome b s).lists := by
  induction b with
  | nil => intro s h; rw [processBatch_nil]; exact h
  | cons op rest ih =>
    intro s h
    cases ho : outcome op with
    | ok itemId rev =>
      rw [processBatch_cons_ok outcome op rest s itemId rev ho]
      exact ih _ (applySuccess_preserves_cleared lid _ op itemId rev h)
    | err msg =>
      by_cases hrl : isRateLimit msg = true
      · rw [processBatch_cons_rl outcome op rest s msg ho hrl]
        exact h
      · have hrl' : isRateLimit msg = false := by
          cases hb : isRateLimit msg with
          | false => rfl
          | true => exact absurd hb hrl
        by_cases hd : op.type = OpType.create_list ∧ isDupCreateMsg msg = true
        · rw [processBatch_cons_dup outcome op rest s msg ho hrl' hd.1 hd.2]
          exact ih _ (markListSynced_preserves_cleared lid op.listId s.lists h)
        · by_cases hnf : isItemNotFound msg = true
          · rw [processBatch_cons_nf outcome op rest s msg ho hrl' hd hnf]
            exact ih _ h
          · have hnf' : isItemNotFound msg = false := by
              cases hb : isItemNotFound msg with
              | false => rfl
              | true => exact absurd hb hnf
            rw [processBatch_cons_other outcome op rest s msg ho hrl' hd hnf']
            exact ih _ h

/-- C4: a queued `create_list` operation that is reached in the batch and
whose remote call fails with a duplicate/already-exists response is treated
exactly as a success: the run marks the list synced (every registry entry
with that id ends with `pendingCreate = false`), emits the list-synced
event, and removes the operation from the queue. -/
theorem C4_duplicate_create (inp : SyncInputs) (st : SyncState)
    (pre post : List PendingOperation) (op : PendingOperation) (msg : String)
    (hrun : st.running = false)
    (hacq : (acquireLock inp.now inp.runId (inp.lockRead st.lock)
      inp.lockWriteThrows st.lock).1 = true)
    (honline : inp.online = true)
    (hlnodup : (st.lists.map (fun l => l.listId)).Nodup)
    (hbatch : st.queue.take 3 = pre ++ op :: post)
    (hpre : ∀ o ∈ pre, ∀ m, inp.outcome o = RemoteOutcome.err m →
      isRateLimit m = false)
    (hty : op.type = OpType.create_list)
    (hout : inp.outcome op = RemoteOutcome.err msg)
    (hrl : isRateLimit msg = false)
    (hdup : isDupCreateMsg msg = true) :
    op ∉ (runSyncOnce inp st).state.queue ∧
    SyncEvent.listSynced op.listId ∈ (runSyncOnce inp st).events ∧
    (∀ l ∈ (runSyncOnce inp st).state.lists, l.listId = op.listId →
      l.pendingCreate = false) := by
  have hqne : st.queue ≠ [] := by
    intro h
    rw [h] at hbatch
    simp at hbatch
  have hqemp : st.queue.isEmpty = false := by
    cases hb : st.queue.isEmpty with
    | false => rfl
    | true => exact absurd (List.isEmpty_iff.1 hb) hqne
  unfold runSyncOnce
  rw [if_neg (by simp [hrun]), if_neg (by simp [hacq]),
    if_neg (by simp [honline]), if_neg (by simp [hqemp])]
  have hsplit := processBatch_append inp.outcome pre (op :: post) hpre
    ⟨st.lists, [], [], []⟩
  have hstep := processBatch_cons_dup inp.outcome op post
    (processBatch inp.outcome pre ⟨st.lists, [], [], []⟩) msg hout hrl hty hdup
  have hpre_listIds := processBatch_listIds inp.outcome pre ⟨st.lists, [], [], []⟩
  obtain ⟨p2, e2, a2, hp2, he2, ha2⟩ := processBatch_mono inp.outcome post
    { lists := markListSynced
        (processBatch inp.outcome pre ⟨st.lists, [], [], []⟩).lists op.listId
      events := (processBatch inp.outcome pre ⟨st.lists, [], [], []⟩).events ++
        [SyncEvent.listSynced op.listId]
      attempted := (processBatch inp.outcome pre ⟨st.lists, [], [], []⟩).attempted ++
        [op.id]
      processed := (processBatch inp.outcome pre ⟨st.lists, [], [], []⟩).processed ++
        [op.id] }
  refine ⟨?_, ?_, ?_⟩
  · show op ∉ removeOperations st.queue
      (processBatch inp.outcome (st.queue.take 3) ⟨st.lists, [], [], []⟩).processed
    rw [hbatch, hsplit, hstep]
    apply removeOperations_removes
    rw [hp2]
    simp
  · show SyncEvent.listSynced op.listId ∈
      (processBatch inp.outcome (st.queue.take 3) ⟨st.lists, [], [], []⟩).events
    rw [hbatch, hsplit, hstep, he2]
    simp
  · show PendingCleared op.listId
      (processBatch inp.outcome (st.queue.take 3) ⟨st.lists, [], [], []⟩).lists
    rw [hbatch, hsplit, hstep]
    apply processBatch_preserves_cleared
    apply markListSynced_establishes
    rw [hpre_listIds]
    exact hlnodup

/-- Operation of the C4 witness: a pending `create_list`. -/
def c4Op : PendingOperation := ⟨"d", OpType.create_list, "LL", 0, "mc", "mn", 0⟩

/-- Registry entry of the C4 witness: still pending creation. -/
def c4List : StoredList := ⟨"LL", "k", "n", none, none, true, false⟩

/-- Inputs of the C4 witness run: the server answers "already exists". -/
def c4Inp : SyncInputs :=
  ⟨7, "r4", true, lockReadOf, false, fun _ => RemoteOutcome.err "already exists"⟩

/-- Initial state of the C4 witness run. -/
def c4St : SyncState := ⟨false, none, [c4Op], [c4List]⟩

theorem C4_duplicate_create_witness :
    (isDupCreateMsg "already exists" = true ∧
      isRateLimit "already exists" = false) ∧
    (∀ l ∈ (runSyncOnce c4Inp c4St).state.lists, l.listId = c4Op.listId →
      l.pendingCreate = false) :=
  ⟨⟨by decide, by decide⟩,
    (C4_duplicate_create c4Inp c4St [] [] c4Op "already exists" rfl (by decide) rfl
      (by decide) (by decide) (fun o ho => absurd ho (List.not_mem_nil o)) rfl rfl
      (by decide) (by decide)).2.2⟩

/-- C7: within one batch, a rate-limit failure stops the drain — nothing
after it is attempted, the failed operation and everything after it stay
queued, while the terminal operations before it are still removed; any
other non-terminal failure keeps only that operation queued and the worker
proceeds to the next operation of the batch. -/
theorem C7_batch_error_policy (inp : SyncInputs) (st : SyncState)
    (pre post : List PendingOperation) (op : PendingOperation)
    (hrun : st.running = false)
    (hacq : (acquireLock inp.now inp.runId (inp.lockRead st.lock)
      inp.lockWriteThrows st.lock).1 = true)
    (honline : inp.online = true)
    (hqnodup : (st.queue.map (fun o => o.id)).Nodup)
    (hbatch : st.queue.take 3 = pre ++ op :: post)
    (hpre : ∀ o ∈ pre, ∀ m, inp.outcome o = RemoteOutcome.err m →
      isRateLimit m = false) :
    (∀ msg, inp.outcome op = RemoteOutcome.err msg → isRateLimit msg = true →
      (runSyncOnce inp st).attempted = pre.map (fun o => o.id) ++ [op.id] ∧
      op ∈ (runSyncOnce inp st).state.queue ∧
      (∀ o ∈ post, o ∈ (runSyncOnce inp st).state.queue ∧
        o.id ∉ (runSyncOnce inp st).attempted) ∧
      (∀ o ∈ pre, opTerminal inp.outcome o = true →
        o ∉ (runSyncOnce inp st).state.queue)) ∧
    (∀ msg, inp.outcome op = RemoteOutcome.err msg → isRateLimit msg = false →
      ¬(op.type = OpType.create_list ∧ isDupCreateMsg msg = true) →
      isItemNotFound msg = false →
      op ∈ (runSyncOnce inp st).state.queue ∧
      (∀ o, post.head? = some o → o.id ∈ (runSyncOnce inp st).attempted)) := by
  have hqne : st.queue ≠ [] := by
    intro h
    rw [h] at hbatch
    simp at hbatch
  have hqemp : st.queue.isEmpty = false := by
    cases hb : st.queue.isEmpty with
    | false => rfl
    | true => exact absurd (List.isEmpty_iff.1 hb) hqne
  have hbn : ((pre ++ op :: post).map (fun o => o.id)).Nodup := by
    rw [← hbatch]
    exact List.Nodup.sublist ((List.take_sublist 3 st.queue).map (fun o => o.id))
      hqnodup
  rw [List.map_append, List.map_cons] at hbn
  have hdisj := List.disjoint_of_nodup_append hbn
  have hop_pre : op.id ∉ pre.map (fun o => o.id) := fun hmem =>
    hdisj hmem (List.mem_cons_self op.id (post.map (fun o => o.id)))
  have hpost_pre : ∀ o ∈ post, o.id ∉ pre.map (fun o => o.id) := fun o ho hmem =>
    hdisj hmem (List.mem_cons_of_mem op.id (List.mem_map_of_mem _ ho))
  have hcons_nodup : (op.id :: post.map (fun o => o.id)).Nodup :=
    hbn.of_append_right
  have hpost_op : ∀ o ∈ post, o.id ≠ op.id := by
    intro o ho heq
    rcases List.nodup_cons.1 hcons_nodup with ⟨hnotin, _⟩
    exact hnotin (heq ▸ List.mem_map_of_mem _ ho)
  have hmem_batch : ∀ o ∈ pre ++ op :: post, o ∈ st.queue := by
    intro o ho
    rw [← hbatch] at ho
    exact List.mem_of_mem_take ho
  have hsplit := processBatch_append inp.outcome pre (op :: post) hpre
    ⟨st.lists, [], [], []⟩
  have hspre_att := processBatch_attempted_no_rl inp.outcome pre hpre
    ⟨st.lists, [], [], []⟩
  have hspre_proc := processBatch_processed_no_rl inp.outcome pre hpre
    ⟨st.lists, [], [], []⟩
  simp only [List.nil_append] at hspre_att hspre_proc
  have hproc_pre_ids : ∀ i ∈ (processBatch inp.outcome pre
      ⟨st.lists, [], [], []⟩).processed, i ∈ pre.map (fun o => o.id) := by
    intro i hi
    rw [hspre_proc] at hi
    rcases List.mem_map.1 hi with ⟨o, ho, hoe⟩
    exact hoe ▸ List.mem_map_of_mem _ (List.mem_of_mem_filter ho)
  unfold runSyncOnce
  rw [if_neg (by simp [hrun]), if_neg (by simp [hacq]),
    if_neg (by simp [honline]), if_neg (by simp [hqemp])]
  constructor
  · intro msg hout hrlt
    have hstep := processBatch_cons_rl inp.outcome op post
      (processBatch inp.outcome pre ⟨st.lists, [], [], []⟩) msg hout hrlt
    refine ⟨?_, ?_, ?_, ?_⟩
    · show (processBatch inp.outcome (st.queue.take 3)
          ⟨st.lists, [], [], []⟩).attempted = pre.map (fun o => o.id) ++ [op.id]
      rw [hbatch, hsplit, hstep]
      show (processBatch inp.outcome pre ⟨st.lists, [], [], []⟩).attempted ++
        [op.id] = pre.map (fun o => o.id) ++ [op.id]
      rw [hspre_att]
    · show op ∈ removeOperations st.queue
        (processBatch inp.outcome (st.queue.take 3) ⟨st.lists, [], [], []⟩).processed
      rw [hbatch, hsplit, hstep]
      apply removeOperations_keeps st.queue _ op
        (hmem_batch op (List.mem_append.2 (Or.inr (List.mem_cons_self op post))))
      intro hmem
      exact hop_pre (hproc_pre_ids op.id hmem)
    · intro o ho
      constructor
      · show o ∈ removeOperations st.queue
          (processBatch inp.outcome (st.queue.take 3) ⟨st.lists, [], [], []⟩).processed
        rw [hbatch, hsplit, hstep]
        apply removeOperations_keeps st.queue _ o
          (hmem_batch o (List.mem_append.2 (Or.inr (List.mem_cons_of_mem op ho))))
        intro hmem
        exact hpost_pre o ho (hproc_pre_ids o.id hmem)
      · show o.id ∉ (processBatch inp.outcome (st.queue.take 3)
          ⟨st.lists, [], [], []⟩).attempted
        rw [hbatch, hsplit, hstep]
        intro hmem
        have : o.id ∈ (processBatch inp.outcome pre
            ⟨st.lists, [], [], []⟩).attempted ++ [op.id] := hmem
        rw [hspre_att] at this
        rcases List.mem_append.1 this with h0 | h0
        · exact hpost_pre o ho h0
        · exact hpost_op o ho (List.mem_singleton.1 h0)
    · intro o ho hterm
      show o ∉ removeOperations st.queue
        (processBatch inp.outcome (st.queue.take 3) ⟨st.lists, [], [], []⟩).processed
      rw [hbatch, hsplit, hstep]
      apply removeOperations_removes
      show o.id ∈ (processBatch inp.outcome pre ⟨st.lists, [], [], []⟩).processed
      rw [hspre_proc]
      exact List.mem_map_of_mem _ (List.mem_filter.2 ⟨ho, by simp [hterm]⟩)
  · intro msg hout hrlf hnd hnf
    have hstep := processBatch_cons_other inp.outcome op post
      (processBatch inp.outcome pre ⟨st.lists, [], [], []⟩) msg hout hrlf hnd hnf
    constructor
    · show op ∈ removeOperations st.queue
        (processBatch inp.outcome (st.queue.take 3) ⟨st.lists, [], [], []⟩).processed
      rw [hbatch, hsplit, hstep]
      apply removeOperations_keeps st.queue _ op
        (hmem_batch op (List.mem_append.2 (Or.inr (List.mem_cons_self op post))))
      intro hmem
      rcases processBatch_processed_spec inp.outcome post _ op.id hmem with h0 | h0
      · have : op.id ∈ pre.map (fun o => o.id) := hproc_pre_ids op.id h0
        exact hop_pre this
      · obtain ⟨o, ho, hoid, hterm⟩ := h0
        exact hpost_op o ho hoid
    · intro o ho
      cases hpc : post with
      | nil => rw [hpc] at ho; simp at ho
      | cons o0 post' =>
        rw [hpc] at ho
        simp only [List.head?_cons, Option.some_inj] at ho
        show o.id ∈ (processBatch inp.outcome (st.queue.take 3)
          ⟨st.lists, [], [], []⟩).attempted
        rw [hbatch, hsplit, hstep, hpc]
        obtain ⟨p, e, a, hp, he, ha⟩ := processBatch_mono inp.outcome (o0 :: post')
          { processBatch inp.outcome pre ⟨st.lists, [], [], []⟩ with
            attempted := (processBatch inp.outcome pre
              ⟨st.lists, [], [], []⟩).attempted ++ [op.id] }
        rw [← ho]
        exact processBatch_attempted_head inp.outcome o0 post' _

/-- First operation of the C7 witness batch: acknowledged. -/
def c7O1 : PendingOperation := ⟨"p", OpType.delete_item, "L", 1, "", "", 0⟩

/-- Second operation of the C7 witness batch: rate-limited. -/
def c7O2 : PendingOperation := ⟨"q", OpType.update_item, "L", 2, "c", "n", 0⟩

/-- Third operation of the C7 witness batch: never attempted. -/
def c7O3 : PendingOperation := ⟨"r", OpType.update_item, "L", 3, "c", "n", 0⟩

/-- Outcome oracle of the C7 witness run. -/
def c7Outcome : PendingOperation → RemoteOutcome := fun op =>
  if op.id = "p" then RemoteOutcome.ok 1 1
  else RemoteOutcome.err "Too many requests"

/-- Inputs of the C7 witness run. -/
def c7Inp : SyncInputs := ⟨9, "r7", true, lockReadOf, false, c7Outcome⟩

/-- Initial state of the C7 witness run. -/
def c7St : SyncState := ⟨false, none, [c7O1, c7O2, c7O3], []⟩

theorem C7_batch_error_policy_witness :
    (isRateLimit "Too many requests" = true ∧
      (c7St.queue.map (fun o => o.id)).Nodup ∧
      c7St.queue.take 3 = [c7O1] ++ c7O2 :: [c7O3]) ∧
    (runSyncOnce c7Inp c7St).attempted = [c7O1].map (fun o => o.id) ++ [c7O2.id] ∧
    c7O2 ∈ (runSyncOnce c7Inp c7St).state.queue := by
  have h := (C7_batch_error_policy c7Inp c7St [c7O1] [c7O3] c7O2 rfl (by decide) rfl
    (by decide) (by decide)
    (by
      intro o ho m hm
      simp only [List.mem_singleton] at ho
      rw [ho] at hm
      simp [c7Inp, c7Outcome, c7O1] at hm)).1
    "Too many requests" (by decide) (by decide)
  exact ⟨⟨by decide, by decide, by decide⟩, h.1, h.2.1⟩

/-- One entry of the incremental item fetch
(`GET /lists/{id}/items?since_rev=N`) as consumed by the reconciliation
worker. -/
structure RemoteFetchedItem where
  item_id : Nat
  ciphertext_b64 : String
  nonce_b64 : String
  deleted : Bool
deriving DecidableEq, Repr

/-- The fetch response: entries and the reported `latest_rev` (`none` when
the field is not a number). -/
structure FetchResult where
  items : List RemoteFetchedItem
  latest_rev : Option Nat
deriving DecidableEq, Repr

/-- Result of `GET /lists/{id}`: the metadata ciphertext. -/
structure MetaResult where
  meta_ciphertext_b64 : String
  meta_nonce_b64 : String
deriving DecidableEq, Repr

/-- Plain list metadata after decryption. -/
structure ListMeta where
  name : String
deriving DecidableEq, Repr

/-- Plain item after decryption. -/
structure ListItemPlain where
  label : String
  flags : FlagState
deriving DecidableEq, Repr

/-- Oracles of one reconciliation tick (`runHealthAndSyncOnce`): the
health-probe answer, the two remote fetches (the `Bool` on the error side is
`isNotFoundError e`), and the decryption capability (`none` models a
decryption failure). -/
structure ReconInputs where
  online : Bool
  getList : String → Except Bool MetaResult
  fetchItems : String → Option Nat → Except Bool FetchResult
  decryptMeta : String → String → String → Option ListMeta
  decryptItem : String → String → String → Option ListItemPlain

def PLACEHOLDER_NAME : String := "Lista importata"

/-- The snapshot list built from one fetch (the loop over `res.items`):
tombstones become deletion snapshots, other entries are decrypted and kept,
and per-item decryption failures are skipped in isolation. -/
def buildSnapshots (inp : ReconInputs) (listKey : String)
    (items : List RemoteFetchedItem) : List RemoteItemSnapshot :=
  items.foldl
    (fun acc it =>
      if it.deleted then acc ++ [⟨it.item_id, "", ⟨false, false, false⟩, true⟩]
      else
        match inp.decryptItem listKey it.ciphertext_b64 it.nonce_b64 with
        | some plain => acc ++ [⟨it.item_id, plain.label, plain.flags, false⟩]
        | none => acc)
    []

/-- The per-list body of the loop of `runHealthAndSyncOnce`: `none` models
the `continue` that silently drops an entry with a degenerate id; otherwise
the updated entry, this list's contribution to the `changed` flag, the
snapshots to merge into its item cache (empty = no merge call), and the
name pushed into `changedListNames` when the revision advanced. -/
def processList (inp : ReconInputs) (l : StoredList) :
    Option (StoredList × Bool × List RemoteItemSnapshot × Option String) :=
  if l.listId = "" ∨ l.listId = "undefined" ∨ l.listId = "null" then none
  else if l.pendingCreate then some (l, false, [], none)
  else if l.removedFromServer then some (l, false, [], none)
  else
    let step1 : StoredList × Bool × Bool :=
      if l.name = "" ∨ l.name = PLACEHOLDER_NAME then
        match inp.getList l.listId with
        | Except.ok metaRes =>
          match inp.decryptMeta l.listKey metaRes.meta_ciphertext_b64
              metaRes.meta_nonce_b64 with
          | some metaPlain =>
            if metaPlain.name ≠ "" ∧ metaPlain.name ≠ l.name then
              ({ l with name := metaPlain.name, removedFromServer := false },
                true, false)
            else (l, false, false)
          | none => (l, false, false)
        | Except.error isNF =>
          if isNF then ({ l with removedFromServer := true }, true, true)
          else (l, false, false)
      else (l, false, false)
    if step1.2.2 then some (step1.1, step1.2.1, [], none)
    else
      match inp.fetchItems step1.1.listId step1.1.lastRemoteRev with
      | Except.ok res =>
        let snaps := buildSnapshots inp step1.1.listKey res.items
        match res.latest_rev with
        | some lr =>
          if some lr ≠ step1.1.lastRemoteRev then
            some ({ step1.1 with lastRemoteRev := some lr
                                 removedFromServer := false },
              true, snaps, some step1.1.name)
          else some (step1.1, step1.2.1, snaps, none)
        | none => some (step1.1, step1.2.1, snaps, none)
      | Except.error isNF =>
        if isNF then
          some ({ step1.1 with removedFromServer := true }, true, [], none)
        else some (step1.1, step1.2.1, [], none)

/-- Whether a list contributes to the tick's `changed` flag. -/
def listChanged (inp : ReconInputs) (l : StoredList) : Bool :=
  match processList inp l with
  | some x => x.2.1
  | none => false

/-- Apply one list's pending merge to the per-list item caches (the source
calls `mergeRemoteItemsIntoLocal` only when at least one snapshot was
built). -/
def applyMerge (caches : String → List StoredItemPlain) (listId : String)
    (snaps : List RemoteItemSnapshot) : String → List StoredItemPlain :=
  if snaps.isEmpty then caches
  else fun k =>
    if k = listId then mergeRemoteItemsIntoLocal (caches listId) snaps
    else caches k

/-- The loop of `runHealthAndSyncOnce` over the stored lists: per-list
results are collected in order, the `changed` contributions are or-ed, the
merges are applied to the item caches as they happen, and the changed names
are concatenated. -/
def tickFold (inp : ReconInputs) :
    List StoredList → (String → List StoredItemPlain) →
    List StoredList × Bool × (String → List StoredItemPlain) × List String
  | [], caches => ([], false, caches, [])
  | l :: rest, caches =>
    match processList inp l with
    | none => tickFold inp rest caches
    | some (newL, ch, snaps, nameOpt) =>
      let r := tickFold inp rest (applyMerge caches l.listId snaps)
      (newL :: r.1, ch || r.2.1, r.2.2.1, nameOpt.toList ++ r.2.2.2)

/-- `runHealthAndSyncOnce` from healthAndSyncWorker.ts: emit the health
event; offline or an empty registry short-circuits; otherwise walk the
lists, and only if anything changed save the updated registry and emit the
lists-changed event.  Returns the new registry, the new item caches, the
emitted events and `changedListNames`. -/
def runHealthAndSyncOnce (inp : ReconInputs) (lists : List StoredList)
    (caches : String → List StoredItemPlain) :
    List StoredList × (String → List StoredItemPlain) × List SyncEvent ×
      List String :=
  if inp.online = false then (lists, caches, [SyncEvent.health false], [])
  else if lists.isEmpty then (lists, caches, [SyncEvent.health true], [])
  else
    let r := tickFold inp lists caches
    if r.2.1 then
      (r.1, r.2.2.1, [SyncEvent.health true, SyncEvent.listsChanged], r.2.2.2)
    else (lists, r.2.2.1, [SyncEvent.health true], r.2.2.2)

theorem tickFold_nochange (inp : ReconInputs) (ls : List StoredList)
    (h : ∀ l' ∈ ls, listChanged inp l' = false) :
    ∀ caches, (tickFold inp ls caches).2.1 = false := by
  induction ls with
  | nil => intro caches; rfl
  | cons l0 rest ih =>
    intro caches
    cases hp : processList inp l0 with
    | none =>
      simp only [tickFold, hp]
      exact ih (fun l' hl' => h l' (List.mem_cons_of_mem l0 hl')) caches
    | some x =>
      obtain ⟨newL, ch, snaps, nameOpt⟩ := x
      have h0 := h l0 (List.mem_cons_self l0 rest)
      rw [listChanged, hp] at h0
      have h0' : ch = false := h0
      simp only [tickFold, hp]
      rw [h0', ih (fun l' hl' => h l' (List.mem_cons_of_mem l0 hl'))]
      rfl

theorem tickFold_caches_at (inp : ReconInputs) (ls : List StoredList)
    (lid : String)
    (h : ∀ l' ∈ ls, l'.listId ≠ lid ∨
      (∀ x, processList inp l' = some x → x.2.2.1 = [])) :
    ∀ caches, (tickFold inp ls caches).2.2.1 lid = caches lid := by
  induction ls with
  | nil => intro caches; rfl
  | cons l0 rest ih =>
    intro caches
    cases hp : processList inp l0 with
    | none =>
      simp only [tickFold, hp]
      exact ih (fun l' hl' => h l' (List.mem_cons_of_mem l0 hl')) caches
    | some x =>
      obtain ⟨newL, ch, snaps, nameOpt⟩ := x
      simp only [tickFold, hp]
      rw [ih (fun l' hl' => h l' (List.mem_cons_of_mem l0 hl'))]
      rcases h l0 (List.mem_cons_self l0 rest) with h0 | h0
      · unfold applyMerge
        by_cases hemp : snaps.isEmpty
        · rw [if_pos hemp]
        · rw [if_neg hemp]
          show (if lid = l0.listId then
              mergeRemoteItemsIntoLocal (caches l0.listId) snaps
            else caches lid) = caches lid
          rw [if_neg (fun heq => h0 heq.symm)]
      · have hsnaps : snaps = [] := h0 (newL, ch, snaps, nameOpt) hp
        rw [hsnaps]
        rfl

/-- C8: for a registered list with a real name, not pending creation, not
removed, and `lastRemoteRev = 5`, a reconciliation tick whose incremental
fetch answers `latest_rev = 5` (and no newer items) leaves that list's
registry entry and item cache untouched; and when no other list changed
either, the tick keeps the whole registry as it was and emits only the
health event — no lists-changed event. -/
theorem C8_incremental_convergence (inp : ReconInputs)
    (lists : List StoredList) (caches : String → List StoredItemPlain)
    (l : StoredList)
    (honline : inp.online = true)
    (hmem : l ∈ lists)
    (hnodup : (lists.map (fun l => l.listId)).Nodup)
    (hid : ¬(l.listId = "" ∨ l.listId = "undefined" ∨ l.listId = "null"))
    (hname : ¬(l.name = "" ∨ l.name = PLACEHOLDER_NAME))
    (hpc : l.pendingCreate = false)
    (hrm : l.removedFromServer = false)
    (hrev : l.lastRemoteRev = some 5)
    (hfetch : inp.fetchItems l.listId (some 5) = Except.ok ⟨[], some 5⟩)
    (hnochange : ∀ l' ∈ lists, listChanged inp l' = false) :
    processList inp l = some (l, false, [], none) ∧
    (runHealthAndSyncOnce inp lists caches).1 = lists ∧
    (runHealthAndSyncOnce inp lists caches).2.1 l.listId = caches l.listId ∧
    (runHealthAndSyncOnce inp lists caches).2.2.1 = [SyncEvent.health true] := by
  have hpl : processList inp l = some (l, false, [], none) := by
    simp [processList, hid, hpc, hrm, hname, hrev, hfetch, buildSnapshots]
  have hne : lists ≠ [] := List.ne_nil_of_mem hmem
  have hemp : lists.isEmpty = false := by
    cases hb : lists.isEmpty with
    | false => rfl
    | true => exact absurd (List.isEmpty_iff.1 hb) hne
  have hch : (tickFold inp lists caches).2.1 = false :=
    tickFold_nochange inp lists hnochange caches
  have hcond : ∀ l' ∈ lists, l'.listId ≠ l.listId ∨
      (∀ x, processList inp l' = some x → x.2.2.1 = []) := by
    intro l' hl'
    by_cases heq : l'.listId = l.listId
    · have hll : l' = l := List.inj_on_of_nodup_map hnodup hl' hmem heq
      subst hll
      refine Or.inr ?_
      intro x hx
      rw [hpl] at hx
      rw [← Option.some_inj.1 hx]
    · exact Or.inl heq
  have hcache := tickFold_caches_at inp lists l.listId hcond caches
  refine ⟨hpl, ?_, ?_, ?_⟩
  · unfold runHealthAndSyncOnce
    rw [if_neg (by simp [honline]), if_neg (by simp [hemp]), if_neg (by simp [hch])]
  · unfold runHealthAndSyncOnce
    rw [if_neg (by simp [honline]), if_neg (by simp [hemp]), if_neg (by simp [hch])]
    exact hcache
  · unfold runHealthAndSyncOnce
    rw [if_neg (by simp [honline]), if_neg (by simp [hemp]), if_neg (by simp [hch])]

/-- Registry entry of the C8 witness: converged at revision 5. -/
def c8List : StoredList := ⟨"L8", "k8", "groceries", some 4, some 5, false, false⟩

/-- Oracles of the C8 witness tick: online, the fetch reports only
`latest_rev = 5` with no items. -/
def c8Inp : ReconInputs :=
  ⟨true, fun _ => Except.error false, fun _ _ => Except.ok ⟨[], some 5⟩,
    fun _ _ _ => none, fun _ _ _ => none⟩

/-- Item caches of the C8 witness tick. -/
def c8Caches : String → List StoredItemPlain := fun _ => [⟨some 1, "eggs", c1Flags⟩]

theorem C8_incremental_convergence_witness :
    (c8Inp.online = true ∧ c8List ∈ [c8List] ∧
      (∀ l' ∈ [c8List], listChanged c8Inp l' = false)) ∧
    (runHealthAndSyncOnce c8Inp [c8List] c8Caches).1 = [c8List] ∧
    (runHealthAndSyncOnce c8Inp [c8List] c8Caches).2.2.1 =
      [SyncEvent.health true] := by
  have h := C8_incremental_convergence c8Inp [c8List] c8Caches c8List rfl
    (List.mem_cons_self c8List []) (by decide) (by decide) (by decide) rfl rfl rfl
    rfl (by decide)
  exact ⟨⟨rfl, List.mem_cons_self c8List [], by decide⟩, h.2.1, h.2.2.2⟩

/-- Phase of one modelled `runSyncOnce` coroutine, cut at the await points
that matter for the shared state: the synchronous running-flag gate, the
lock acquisition, the health probe, the queue read plus batch of remote
calls, the queue/registry write, and the `finally` block. -/
inductive RunnerPhase
  | idle
  | ready
  | locked
  | probed
  | drained (ws : WorkerState)
  | finishing
  | done
deriving DecidableEq, Repr

/-- One coroutine: its phase plus the observables the mutual-exclusion claim
talks about. -/
structure Runner where
  phase : RunnerPhase
  runId : String
  now : Nat
  skippedAtFlag : Bool
  madeRemoteCall : Bool
  touchedQueue : Bool
deriving DecidableEq, Repr

/-- The whole two-invocation system: the shared in-process `running` flag,
the persisted lock, queue and registry, and the two coroutines. -/
structure Sys where
  running : Bool
  lock : Option LockRec
  queue : List PendingOperation
  lists : List StoredList
  a : Runner
  b : Runner
deriving Repr

/-- One atomic step of a single coroutine on the shared state, mirroring the
corresponding segment of `runSyncOnce` between await points. -/
def stepRunner (online : Bool) (outcome : PendingOperation → RemoteOutcome)
    (running : Bool) (lock : Option LockRec) (queue : List PendingOperation)
    (lists : List StoredList) (r : Runner) :
    Bool × Option LockRec × List PendingOperation × List StoredList × Runner :=
  match r.phase with
  | RunnerPhase.idle =>
    if running then
      (running, lock, queue, lists,
        { r with phase := RunnerPhase.done, skippedAtFlag := true })
    else (true, lock, queue, lists, { r with phase := RunnerPhase.ready })
  | RunnerPhase.ready =>
    let acq := acquireLock r.now r.runId (lockReadOf lock) false lock
    if acq.1 then (running, acq.2, queue, lists,
      { r with phase := RunnerPhase.locked })
    else (false, lock, queue, lists, { r with phase := RunnerPhase.done })
  | RunnerPhase.locked =>
    if online then
      (running, lock, queue, lists,
        { r with phase := RunnerPhase.probed, madeRemoteCall := true })
    else
      (false, releaseLock r.runId lock, queue, lists,
        { r with phase := RunnerPhase.done, madeRemoteCall := true })
  | RunnerPhase.probed =>
    if queue.isEmpty then
      (false, releaseLock r.runId lock, queue, lists,
        { r with phase := RunnerPhase.done, touchedQueue := true })
    else
      (running, lock, queue, lists,
        { r with
            phase := RunnerPhase.drained
              (processBatch outcome (queue.take 3) ⟨lists, [], [], []⟩)
            touchedQueue := true })
  | RunnerPhase.drained ws =>
    (running, lock, removeOperations queue ws.processed, ws.lists,
      { r with phase := RunnerPhase.finishing, touchedQueue := true })
  | RunnerPhase.finishing =>
    (false, releaseLock r.runId lock, queue, lists,
      { r with phase := RunnerPhase.done })
  | RunnerPhase.done => (running, lock, queue, lists, r)

/-- The shared 5-tuple as seen by runner A. -/
def sharedOf (sys : Sys) :
    Bool × Option LockRec × List PendingOperation × List StoredList × Runner :=
  (sys.running, sys.lock, sys.queue, sys.lists, sys.a)

/-- Rebuild the system from A's 5-tuple and B. -/
def withShared
    (t : Bool × Option LockRec × List PendingOperation × List StoredList × Runner)
    (b : Runner) : Sys :=
  ⟨t.1, t.2.1, t.2.2.1, t.2.2.2.1, t.2.2.2.2, b⟩

/-- A's step as a function on its 5-tuple. -/
def stepA (online : Bool) (outcome : PendingOperation → RemoteOutcome)
    (t : Bool × Option LockRec × List PendingOperation × List StoredList × Runner) :
    Bool × Option LockRec × List PendingOperation × List StoredList × Runner :=
  stepRunner online outcome t.1 t.2.1 t.2.2.1 t.2.2.2.1 t.2.2.2.2

/-- One scheduled step of the system: `true` steps runner A, `false` steps
runner B. -/
def sysStep (online : Bool) (outcome : PendingOperation → RemoteOutcome)
    (sys : Sys) (which : Bool) : Sys :=
  if which then withShared (stepA online outcome (sharedOf sys)) sys.b
  else
    let t := stepRunner online outcome sys.running sys.lock sys.queue sys.lists sys.b
    ⟨t.1, t.2.1, t.2.2.1, t.2.2.2.1, sys.a, t.2.2.2.2⟩

/-- Run the system under a schedule (the interleaving of the two
invocations). -/
def sysRun (online : Bool) (outcome : PendingOperation → RemoteOutcome) :
    Sys → List Bool → Sys
  | sys, [] => sys
  | sys, w :: ws => sysRun online outcome (sysStep online outcome sys w) ws

/-- A coroutine is mid-run: past the flag gate, not yet finished. -/
def midPhase : RunnerPhase → Bool
  | RunnerPhase.idle => false
  | RunnerPhase.done => false
  | _ => true

theorem sysRun_allA (online : Bool) (outcome : PendingOperation → RemoteOutcome)
    (ss : List Bool) (h : ∀ w ∈ ss, w = true) :
    ∀ sys : Sys, sysRun online outcome sys ss =
      withShared ((stepA online outcome)^[ss.length] (sharedOf sys)) sys.b := by
  induction ss with
  | nil => intro sys; rfl
  | cons w ws ih =>
    intro sys
    have hw : w = true := h w (List.mem_cons_self w ws)
    subst hw
    show sysRun online outcome (sysStep online outcome sys true) ws = _
    rw [ih (fun w' hw' => h w' (List.mem_cons_of_mem true hw'))]
    rw [show sysStep online outcome sys true =
      withShared (stepA online outcome (sharedOf sys)) sys.b from rfl]
    rw [show sharedOf (withShared (stepA online outcome (sharedOf sys)) sys.b) =
      stepA online outcome (sharedOf sys) from rfl]
    rw [List.length_cons, Function.iterate_succ_apply]
    rfl

theorem sysRun_doneB (online : Bool) (outcome : PendingOperation → RemoteOutcome)
    (ss : List Bool) :
    ∀ sys : Sys, sys.b.phase = RunnerPhase.done →
      sysRun online outcome sys ss =
        withShared ((stepA online outcome)^[ss.count true] (sharedOf sys)) sys.b := by
  induction ss with
  | nil =>
    intro sys _
    rfl
  | cons w ws ih =>
    intro sys hb
    cases w with
    | true =>
      show sysRun online outcome (sysStep online outcome sys true) ws = _
      rw [ih (sysStep online outcome sys true) hb]
      rw [show (true :: ws).count true = ws.count true + 1 by simp]
      rw [Function.iterate_succ_apply]
      rfl
    | false =>
      have hsr : stepRunner online outcome sys.running sys.lock sys.queue
          sys.lists sys.b = (sys.running, sys.lock, sys.queue, sys.lists, sys.b) := by
        unfold stepRunner
        rw [hb]
      have hstep : sysStep online outcome sys false = sys := by
        unfold sysStep
        rw [if_neg (by simp), hsr]
      show sysRun online outcome (sysStep online outcome sys false) ws = _
      rw [hstep, ih sys hb]
      rw [show (false :: ws).count true = ws.count true by simp]

theorem aStep1 (outcome : PendingOperation → RemoteOutcome)
    (q : List PendingOperation) (ls : List StoredList) (rid : String) (now : Nat) :
    stepA true outcome
        (false, none, q, ls, ⟨RunnerPhase.idle, rid, now, false, false, false⟩) =
      (true, none, q, ls, ⟨RunnerPhase.ready, rid, now, false, false, false⟩) := by
  simp [stepA, stepRunner]

theorem aStep2 (outcome : PendingOperation → RemoteOutcome)
    (q : List PendingOperation) (ls : List StoredList) (rid : String) (now : Nat) :
    stepA true outcome
        (true, none, q, ls, ⟨RunnerPhase.ready, rid, now, false, false, false⟩) =
      (true, some ⟨rid, now⟩, q, ls,
        ⟨RunnerPhase.locked, rid, now, false, false, false⟩) := by
  simp [stepA, stepRunner, acquireLock, lockReadOf]

theorem aStep3 (outcome : PendingOperation → RemoteOutcome)
    (q : List PendingOperation) (ls : List StoredList) (rid : String) (now : Nat) :
    stepA true outcome
        (true, some ⟨rid, now⟩, q, ls,
          ⟨RunnerPhase.locked, rid, now, false, false, false⟩) =
      (true, some ⟨rid, now⟩, q, ls,
        ⟨RunnerPhase.probed, rid, now, false, true, false⟩) := by
  simp [stepA, stepRunner]

theorem aStep4 (outcome : PendingOperation → RemoteOutcome)
    (q : List PendingOperation) (ls : List StoredList) (rid : String) (now : Nat)
    (hqe : q.isEmpty = false) :
    stepA true outcome
        (true, some ⟨rid, now⟩, q, ls,
          ⟨RunnerPhase.probed, rid, now, false, true, false⟩) =
      (true, some ⟨rid, now⟩, q, ls,
        ⟨RunnerPhase.drained (processBatch outcome (q.take 3) ⟨ls, [], [], []⟩),
          rid, now, false, true, true⟩) := by
  simp [stepA, stepRunner, hqe]

theorem aStep5 (outcome : PendingOperation → RemoteOutcome)
    (q : List PendingOperation) (ls : List StoredList) (rid : String) (now : Nat) :
    stepA true outcome
        (true, some ⟨rid, now⟩, q, ls,
          ⟨RunnerPhase.drained (processBatch outcome (q.take 3) ⟨ls, [], [], []⟩),
            rid, now, false, true, true⟩) =
      (true, some ⟨rid, now⟩,
        removeOperations q
          (processBatch outcome (q.take 3) ⟨ls, [], [], []⟩).processed,
        (processBatch outcome (q.take 3) ⟨ls, [], [], []⟩).lists,
        ⟨RunnerPhase.finishing, rid, now, false, true, true⟩) := by
  simp [stepA, stepRunner]

theorem aStep6 (outcome : PendingOperation → RemoteOutcome)
    (q' : List PendingOperation) (ls' : List StoredList) (rid : String) (now : Nat) :
    stepA true outcome
        (true, some ⟨rid, now⟩, q', ls',
          ⟨RunnerPhase.finishing, rid, now, false, true, true⟩) =
      (false, none, q', ls', ⟨RunnerPhase.done, rid, now, false, true, true⟩) := by
  simp [stepA, stepRunner, releaseLock]

theorem aChain_done (outcome : PendingOperation → RemoteOutcome)
    (q : List PendingOperation) (ls : List StoredList) (rid : String) (now : Nat)
    (hqe : q.isEmpty = false) :
    ∀ n, 6 ≤ n →
      (stepA true outcome)^[n]
          (false, none, q, ls, ⟨RunnerPhase.idle, rid, now, false, false, false⟩) =
        (false, none,
          removeOperations q
            (processBatch outcome (q.take 3) ⟨ls, [], [], []⟩).processed,
          (processBatch outcome (q.take 3) ⟨ls, [], [], []⟩).lists,
          ⟨RunnerPhase.done, rid, now, false, true, true⟩) := by
  have base : (stepA true outcome)^[6]
      (false, none, q, ls, ⟨RunnerPhase.idle, rid, now, false, false, false⟩) =
      (false, none,
        removeOperations q
          (processBatch outcome (q.take 3) ⟨ls, [], [], []⟩).processed,
        (processBatch outcome (q.take 3) ⟨ls, [], [], []⟩).lists,
        ⟨RunnerPhase.done, rid, now, false, true, true⟩) := by
    rw [show (6 : Nat) = 5 + 1 from rfl, Function.iterate_succ_apply,
      aStep1 outcome q ls rid now,
      show (5 : Nat) = 4 + 1 from rfl, Function.iterate_succ_apply,
      aStep2 outcome q ls rid now,
      show (4 : Nat) = 3 + 1 from rfl, Function.iterate_succ_apply,
      aStep3 outcome q ls rid now,
      show (3 : Nat) = 2 + 1 from rfl, Function.iterate_succ_apply,
      aStep4 outcome q ls rid now hqe,
      show (2 : Nat) = 1 + 1 from rfl, Function.iterate_succ_apply,
      aStep5 outcome q ls rid now,
      show (1 : Nat) = 0 + 1 from rfl, Function.iterate_succ_apply,
      aStep6 outcome _ _ rid now, Function.iterate_zero_apply]
  intro n hn
  induction n, hn using Nat.le_induction with
  | base => exact base
  | succ n hn ih =>
    rw [Function.iterate_succ_apply', ih]
    simp [stepA, stepRunner]

theorem aChain_mid (outcome : PendingOperation → RemoteOutcome)
    (q : List PendingOperation) (ls : List StoredList) (rid : String) (now : Nat)
    (hqe : q.isEmpty = false) (k : Nat) (h1 : 1 ≤ k) (h5 : k ≤ 5) :
    ((stepA true outcome)^[k]
        (false, none, q, ls, ⟨RunnerPhase.idle, rid, now, false, false, false⟩)).1 =
      true ∧
    midPhase ((stepA true outcome)^[k]
        (false, none, q, ls,
          ⟨RunnerPhase.idle, rid, now, false, false, false⟩)).2.2.2.2.phase =
      true := by
  interval_cases k
  · rw [show (1 : Nat) = 0 + 1 from rfl, Function.iterate_succ_apply,
      aStep1 outcome q ls rid now, Function.iterate_zero_apply]
    exact ⟨rfl, rfl⟩
  · rw [show (2 : Nat) = 1 + 1 from rfl, Function.iterate_succ_apply,
      aStep1 outcome q ls rid now,
      show (1 : Nat) = 0 + 1 from rfl, Function.iterate_succ_apply,
      aStep2 outcome q ls rid now, Function.iterate_zero_apply]
    exact ⟨rfl, rfl⟩
  · rw [show (3 : Nat) = 2 + 1 from rfl, Function.iterate_succ_apply,
      aStep1 outcome q ls rid now,
      show (2 : Nat) = 1 + 1 from rfl, Function.iterate_succ_apply,
      aStep2 outcome q ls rid now,
      show (1 : Nat) = 0 + 1 from rfl, Function.iterate_succ_apply,
      aStep3 outcome q ls rid now, Function.iterate_zero_apply]
    exact ⟨rfl, rfl⟩
  · rw [show (4 : Nat) = 3 + 1 from rfl, Function.iterate_succ_apply,
      aStep1 outcome q ls rid now,
      show (3 : Nat) = 2 + 1 from rfl, Function.iterate_succ_apply,
      aStep2 outcome q ls rid now,
      show (2 : Nat) = 1 + 1 from rfl, Function.iterate_succ_apply,
      aStep3 outcome q ls rid now,
      show (1 : Nat) = 0 + 1 from rfl, Function.iterate_succ_apply,
      aStep4 outcome q ls rid now hqe, Function.iterate_zero_apply]
    exact ⟨rfl, rfl⟩
  · rw [show (5 : Nat) = 4 + 1 from rfl, Function.iterate_succ_apply,
      aStep1 outcome q ls rid now,
      show (4 : Nat) = 3 + 1 from rfl, Function.iterate_succ_apply,
      aStep2 outcome q ls rid now,
      show (3 : Nat) = 2 + 1 from rfl, Function.iterate_succ_apply,
      aStep3 outcome q ls rid now,
      show (2 : Nat) = 1 + 1 from rfl, Function.iterate_succ_apply,
      aStep4 outcome q ls rid now hqe,
      show (1 : Nat) = 0 + 1 from rfl, Function.iterate_succ_apply,
      aStep5 outcome q ls rid now, Function.iterate_zero_apply]
    exact ⟨rfl, rfl⟩

theorem sysRun_append (online : Bool) (outcome : PendingOperation → RemoteOutcome)
    (xs ys : List Bool) :
    ∀ sys : Sys, sysRun online outcome sys (xs ++ ys) =
      sysRun online outcome (sysRun online outcome sys xs) ys := by
  induction xs with
  | nil => intro sys; rfl
  | cons w ws ih =>
    intro sys
    show sysRun online outcome (sysStep online outcome sys w) (ws ++ ys) = _
    rw [ih (sysStep online outcome sys w)]
    rfl

theorem sysStep_blockB (online : Bool) (outcome : PendingOperation → RemoteOutcome)
    (sys : Sys) (hb : sys.b.phase = RunnerPhase.idle) (hr : sys.running = true) :
    sysStep online outcome sys false =
      ⟨sys.running, sys.lock, sys.queue, sys.lists, sys.a,
        { sys.b with phase := RunnerPhase.done, skippedAtFlag := true }⟩ := by
  have hsr : stepRunner online outcome sys.running sys.lock sys.queue sys.lists
      sys.b = (sys.running, sys.lock, sys.queue, sys.lists,
        { sys.b with phase := RunnerPhase.done, skippedAtFlag := true }) := by
    unfold stepRunner
    rw [hb]
    simp [hr]
  unfold sysStep
  rw [if_neg (by simp), hsr]

/-- C3: when a second `runOnce` invocation takes its first step while the
first one is mid-run (between the synchronous running-flag gate and the
`finally` block), the second returns immediately at the flag gate: it ends
done, flagged as skipped, having made no remote call and having neither read
nor written the operation queue; the first invocation alone performs the
remote calls and removes the processed operations.  Independently, the lock
gate of `acquireLock` blocks on a record younger than the 30000 ms TTL (with
a truthy timestamp) and silently overwrites a record at least the TTL old
with this run's own record. -/
theorem C3_mutual_exclusion (outcome : PendingOperation → RemoteOutcome)
    (q : List PendingOperation) (ls : List StoredList)
    (ridA ridB : String) (nowA nowB : Nat) (s1 s2 : List Bool)
    (hqe : q.isEmpty = false)
    (hall : ∀ w ∈ s1, w = true)
    (h1 : 1 ≤ s1.length) (h5 : s1.length ≤ 5)
    (htot : 6 ≤ s1.length + s2.count true) :
    (∀ final : Sys, final = sysRun true outcome
        ⟨false, none, q, ls,
          ⟨RunnerPhase.idle, ridA, nowA, false, false, false⟩,
          ⟨RunnerPhase.idle, ridB, nowB, false, false, false⟩⟩
        (s1 ++ false :: s2) →
      final.b = ⟨RunnerPhase.done, ridB, nowB, true, false, false⟩ ∧
      final.a = ⟨RunnerPhase.done, ridA, nowA, false, true, true⟩ ∧
      final.queue = removeOperations q
        (processBatch outcome (q.take 3) ⟨ls, [], [], []⟩).processed ∧
      final.lists = (processBatch outcome (q.take 3) ⟨ls, [], [], []⟩).lists) ∧
    (∀ (now : Nat) (rid : String) (rec : LockRec) (store : Option LockRec),
      rec.ts ≠ 0 → now - rec.ts < LOCK_TTL_MS →
      acquireLock now rid (lockReadOf (some rec)) false store = (false, store)) ∧
    (∀ (now : Nat) (rid : String) (rec : LockRec) (store : Option LockRec),
      LOCK_TTL_MS ≤ now - rec.ts →
      acquireLock now rid (lockReadOf (some rec)) false store =
        (true, some ⟨rid, now⟩)) := by
  refine ⟨?_, ?_, ?_⟩
  · intro final hfin
    subst hfin
    obtain ⟨hrun, hmid⟩ := aChain_mid outcome q ls ridA nowA hqe s1.length h1 h5
    rw [sysRun_append true outcome s1 (false :: s2)]
    rw [sysRun_allA true outcome s1 hall]
    rw [show sharedOf ⟨false, none, q, ls,
        ⟨RunnerPhase.idle, ridA, nowA, false, false, false⟩,
        ⟨RunnerPhase.idle, ridB, nowB, false, false, false⟩⟩ =
      (false, none, q, ls,
        ⟨RunnerPhase.idle, ridA, nowA, false, false, false⟩) from rfl]
    rw [show sysRun true outcome
        (withShared ((stepA true outcome)^[s1.length]
          (false, none, q, ls,
            ⟨RunnerPhase.idle, ridA, nowA, false, false, false⟩))
          ⟨RunnerPhase.idle, ridB, nowB, false, false, false⟩)
        (false :: s2) =
      sysRun true outcome
        (sysStep true outcome
          (withShared ((stepA true outcome)^[s1.length]
            (false, none, q, ls,
              ⟨RunnerPhase.idle, ridA, nowA, false, false, false⟩))
            ⟨RunnerPhase.idle, ridB, nowB, false, false, false⟩)
          false) s2 from rfl]
    rw [sysStep_blockB true outcome _ rfl hrun]
    rw [show (⟨(withShared ((stepA true outcome)^[s1.length]
          (false, none, q, ls,
            ⟨RunnerPhase.idle, ridA, nowA, false, false, false⟩))
          ⟨RunnerPhase.idle, ridB, nowB, false, false, false⟩).running,
        (withShared ((stepA true outcome)^[s1.length]
          (false, none, q, ls,
            ⟨RunnerPhase.idle, ridA, nowA, false, false, false⟩))
          ⟨RunnerPhase.idle, ridB, nowB, false, false, false⟩).lock,
        (withShared ((stepA true outcome)^[s1.length]
          (false, none, q, ls,
            ⟨RunnerPhase.idle, ridA, nowA, false, false, false⟩))
          ⟨RunnerPhase.idle, ridB, nowB, false, false, false⟩).queue,
        (withShared ((stepA true outcome)^[s1.length]
          (false, none, q, ls,
            ⟨RunnerPhase.idle, ridA, nowA, false, false, false⟩))
          ⟨RunnerPhase.idle, ridB, nowB, false, false, false⟩).lists,
        (withShared ((stepA true outcome)^[s1.length]
          (false, none, q, ls,
            ⟨RunnerPhase.idle, ridA, nowA, false, false, false⟩))
          ⟨RunnerPhase.idle, ridB, nowB, false, false, false⟩).a,
        { (withShared ((stepA true outcome)^[s1.length]
            (false, none, q, ls,
              ⟨RunnerPhase.idle, ridA, nowA, false, false, false⟩))
            ⟨RunnerPhase.idle, ridB, nowB, false, false, false⟩).b with
            phase := RunnerPhase.done, skippedAtFlag := true }⟩ : Sys) =
      withShared ((stepA true outcome)^[s1.length]
        (false, none, q, ls,
          ⟨RunnerPhase.idle, ridA, nowA, false, false, false⟩))
        ⟨RunnerPhase.done, ridB, nowB, true, false, false⟩ from rfl]
    rw [sysRun_doneB true outcome s2 _ rfl]
    rw [show sharedOf (withShared ((stepA true outcome)^[s1.length]
        (false, none, q, ls,
          ⟨RunnerPhase.idle, ridA, nowA, false, false, false⟩))
        ⟨RunnerPhase.done, ridB, nowB, true, false, false⟩) =
      ((stepA true outcome)^[s1.length]
        (false, none, q, ls,
          ⟨RunnerPhase.idle, ridA, nowA, false, false, false⟩)) from rfl]
    rw [← Function.iterate_add_apply]
    rw [aChain_done outcome q ls ridA nowA hqe (s2.count true + s1.length)
      (by omega)]
    exact ⟨rfl, rfl, rfl, rfl⟩
  · intro now rid rec store hts hlt
    have hf : lockFresh now rec = true := by
      simp [lockFresh, hts, hlt]
    simp [acquireLock, lockReadOf, hf]
  · intro now rid rec store hge
    have hnlt : ¬(now - rec.ts < LOCK_TTL_MS) := Nat.not_lt.2 hge
    have hf : lockFresh now rec = false := by
      simp [lockFresh, hnlt]
    simp [acquireLock, lockReadOf, hf]

/-- Queued operation of the C3 witness run. -/
def c3Op : PendingOperation := ⟨"m", OpType.delete_item, "L", 1, "", "", 0⟩

/-- Outcome oracle of the C3 witness run. -/
def c3Outcome : PendingOperation → RemoteOutcome := fun _ => RemoteOutcome.ok 1 1

/-- Schedule prefix of the C3 witness: A takes its first step. -/
def c3S1 : List Bool := [true]

/-- Schedule suffix of the C3 witness: A runs to completion. -/
def c3S2 : List Bool := [true, true, true, true, true]

/-- Initial system of the C3 witness: both invocations pending. -/
def c3Sys : Sys :=
  ⟨false, none, [c3Op], [], ⟨RunnerPhase.idle, "A", 1, false, false, false⟩,
    ⟨RunnerPhase.idle, "B", 2, false, false, false⟩⟩

theorem C3_mutual_exclusion_witness :
    (([c3Op] : List PendingOperation).isEmpty = false ∧
      (∀ w ∈ c3S1, w = true) ∧ 1 ≤ c3S1.length ∧ c3S1.length ≤ 5 ∧
      6 ≤ c3S1.length + c3S2.count true) ∧
    (sysRun true c3Outcome c3Sys (c3S1 ++ false :: c3S2)).b =
      ⟨RunnerPhase.done, "B", 2, true, false, false⟩ ∧
    (sysRun true c3Outcome c3Sys (c3S1 ++ false :: c3S2)).a =
      ⟨RunnerPhase.done, "A", 1, false, true, true⟩ ∧
    (sysRun true c3Outcome c3Sys (c3S1 ++ false :: c3S2)).queue =
      removeOperations [c3Op]
        (processBatch c3Outcome ([c3Op].take 3) ⟨[], [], [], []⟩).processed := by
  have h := (C3_mutual_exclusion c3Outcome [c3Op] [] "A" "B" 1 2 c3S1 c3S2
    (by decide) (by decide) (by decide) (by decide) (by decide)).1
    (sysRun true c3Outcome c3Sys (c3S1 ++ false :: c3S2)) rfl
  exact ⟨⟨by decide, by decide, by decide, by decide, by decide⟩,
    h.1, h.2.1, h.2.2.1⟩
